import Mathlib

/-!
Verification development for the quantulum extraction pipeline
(`quantulum/parser.py` together with the data model of `quantulum/classes.py`).

The pipeline's own code (text cleaning, spelled-out-number conversion, offset
reconciliation, value parsing, unit resolution, surface extraction, the
heuristic correction chain and the two orchestrators `parse` / `inline_parse`)
is embedded here as executable Lean functions over `List Char` (Python `str`
values) and `ℚ` (Python floats, modelled as exact rationals), `Int` (Python
ints) and `Option`/`Except` (Python `None` and raised exceptions).

External collaborators that are not part of the repository's code — the
regular-expression grammar (`quantulum.regex`), the unit/entity knowledge base
(`quantulum.load`) and the ML disambiguator (`quantulum.classifier`) — are
modelled from the specification at their interface boundary: the two
`finditer` streams are passed to `parse` as explicit match lists, the
knowledge-base lookups are fields of a `KB` structure, and the fixed token
tables are small concrete tables.  Each such definition carries a
`Modelled from the spec:` note.
-/

set_option maxRecDepth 10000

/- The Batteries rational-number operations are `irreducible`; the concrete
evaluations below (counterexamples and witnesses run on explicit inputs) need
them to reduce. -/
set_option allowUnsafeReducibility true
attribute [local semireducible] Rat.mul Rat.add Rat.sub Rat.inv Rat.ofScientific

namespace Quantulum

/-! ### Basic character and list-of-char helpers (Python `str` semantics) -/

/-- Python `str.isspace`-style whitespace characters (the ones relevant here). -/
def isWs (c : Char) : Bool :=
  c = ' ' ∨ c = '\t' ∨ c = '\n' ∨ c = '\r'

/-- ASCII decimal digit test (`\d` for the ASCII fragments used by the parser). -/
def isDigitC (c : Char) : Bool := '0' ≤ c ∧ c ≤ '9'

/-- ASCII uppercase test (`[A-Z]`). -/
def isUpperC (c : Char) : Bool := 'A' ≤ c ∧ c ≤ 'Z'

/-- ASCII lowercase test. -/
def isLowerC (c : Char) : Bool := 'a' ≤ c ∧ c ≤ 'z'

/-- Regex word character (`\w` over the ASCII fragment): letter, digit or underscore. -/
def isWordC (c : Char) : Bool := isDigitC c ∨ isUpperC c ∨ isLowerC c ∨ c = '_'

/-- Python `str.lower` (ASCII fold, sufficient for the parser's tables). -/
def pyLower (l : List Char) : List Char := l.map Char.toLower

/-- Strip leading whitespace. -/
def stripLead : List Char → List Char
  | [] => []
  | c :: r => if isWs c then stripLead r else c :: r

/-- Python `str.strip()`: strip whitespace at both ends. -/
def pyStrip (l : List Char) : List Char :=
  ((stripLead l.reverse).reverse |> stripLead)

/-- Python `sub in s` substring containment. -/
def containsSub (sub : List Char) : List Char → Bool
  | [] => sub.isEmpty
  | c :: r => sub.isPrefixOf (c :: r) || containsSub sub r

/-- Index of the first occurrence of `sub` (Python `str.find` when it succeeds). -/
def findSubIdx (sub : List Char) : List Char → Option Nat
  | [] => if sub.isEmpty then some 0 else none
  | c :: r =>
    if sub.isPrefixOf (c :: r) then some 0
    else (findSubIdx sub r).map (· + 1)

/-- Python `s.endswith(w)`. -/
def endsWith (w l : List Char) : Bool := w.reverse.isPrefixOf l.reverse

/-- Python `s.split(sep)` for a non-empty separator `c :: cs`:
split on every (non-overlapping, leftmost) occurrence, keeping empty pieces.
The `fuel` argument only serves structural termination; each step consumes at
least one character, so any `fuel ≥ length` gives the untruncated behaviour. -/
def pySplitOnAux (c : Char) (cs : List Char) : Nat → List Char → List Char →
    List (List Char)
  | _, acc, [] => [acc.reverse]
  | 0, acc, d :: r => [acc.reverse ++ (d :: r)]
  | fuel + 1, acc, d :: r =>
    if (c :: cs).isPrefixOf (d :: r) then
      acc.reverse :: pySplitOnAux c cs fuel [] (r.drop cs.length)
    else
      pySplitOnAux c cs fuel (d :: acc) r

/-- Python `s.split(sep)` (total: an empty separator returns the whole string,
a case the parser never produces). -/
def pySplitOn (sep l : List Char) : List (List Char) :=
  match sep with
  | [] => [l]
  | c :: cs => pySplitOnAux c cs l.length [] l

/-- Python `s.split()` (no argument): split on whitespace runs, dropping empties. -/
def pySplitWs : List Char → List (List Char)
  | [] => []
  | c :: r =>
    if isWs c then pySplitWs r
    else
      match pySplitWs r with
      | [] => [[c]]
      | w :: ws =>
        match r with
        | [] => [[c]]
        | d :: _ => if isWs d then [c] :: w :: ws else (c :: w) :: ws

/-- Collapse runs of spaces to a single space (`re.sub(' +', ' ', value)`). -/
def collapseSpaces : List Char → List Char
  | [] => []
  | c :: r =>
    if c = ' ' then
      match r with
      | [] => [' ']
      | d :: _ => if d = ' ' then collapseSpaces r else ' ' :: collapseSpaces r
    else c :: collapseSpaces r

/-! ### Numeric literal parsing (Python `float`, `int`, `Fraction`) -/

/-- Greedily take a run of ASCII digits. -/
def takeDigits : List Char → (List Char × List Char)
  | [] => ([], [])
  | c :: r =>
    if isDigitC c then (c :: (takeDigits r).1, (takeDigits r).2)
    else ([], c :: r)

/-- Value of a list of ASCII digits. -/
def digitsToNat : List Char → Nat → Nat
  | [], acc => acc
  | c :: r, acc => digitsToNat r (acc * 10 + (c.toNat - '0'.toNat))

/-- Parse an optional sign, returning the sign and the rest. -/
def takeSign : List Char → (Int × List Char)
  | '+' :: r => (1, r)
  | '-' :: r => (-1, r)
  | l => (1, l)

/-- `10 ^ e` over ℚ for an integer exponent. -/
def pow10 (e : Int) : ℚ :=
  if 0 ≤ e then ((10 : ℚ) ^ e.toNat) else 1 / ((10 : ℚ) ^ (-e).toNat)

/-- The exponent tail of a Python float literal: `e`/`E`, optional sign, digits. -/
def parseExpTail : List Char → Option Int
  | [] => some 0
  | c :: r =>
    if c = 'e' ∨ c = 'E' then
      let (sg, r1) := takeSign r
      let (ds, r2) := takeDigits r1
      if ds.isEmpty ∨ ¬ r2.isEmpty then none
      else some (sg * (digitsToNat ds 0))
    else none

/-- Python `float(s)` on the literal forms the parser can produce:
optional surrounding whitespace, optional sign, a decimal mantissa with at
least one digit (`12`, `1.5`, `.5`, `5.`), and an optional exponent part.
Values are modelled as exact rationals (the claims under study do not concern
binary floating-point rounding, and `inf`/`nan` spellings never arise from the
numeric grammar). Returns `none` exactly where Python raises `ValueError`. -/
def parseFloat (s : List Char) : Option ℚ :=
  let t := pyStrip s
  let (sg, t1) := takeSign t
  let (ip, t2) := takeDigits t1
  match t2 with
  | '.' :: t3 =>
    let (fp, t4) := takeDigits t3
    if ip.isEmpty ∧ fp.isEmpty then none
    else
      match parseExpTail t4 with
      | none => none
      | some e =>
        some ((sg : ℚ) * ((digitsToNat ip 0 : ℚ) +
          (digitsToNat fp 0 : ℚ) / (10 : ℚ) ^ fp.length) * pow10 e)
  | _ =>
    if ip.isEmpty then none
    else
      match parseExpTail t2 with
      | none => none
      | some e => some ((sg : ℚ) * (digitsToNat ip 0 : ℚ) * pow10 e)

/-- Python `int(s)`: optional surrounding whitespace, optional sign, digits. -/
def parseInt (s : List Char) : Option Int :=
  let t := pyStrip s
  let (sg, t1) := takeSign t
  let (ds, t2) := takeDigits t1
  if ds.isEmpty ∨ ¬ t2.isEmpty then none else some (sg * (digitsToNat ds 0))

/-- Python `float(Fraction(s))` on the forms reachable here: optional
whitespace and sign, then either `N`, `N/M` or a decimal literal.
`none` exactly where `Fraction` raises `ValueError` (e.g. `1/2/3`). -/
def parseFraction (s : List Char) : Option ℚ :=
  let t := pyStrip s
  let (sg, t1) := takeSign t
  let (ip, t2) := takeDigits t1
  match t2 with
  | [] => if ip.isEmpty then none else some ((sg : ℚ) * (digitsToNat ip 0 : ℚ))
  | '/' :: t3 =>
    let (dp, t4) := takeDigits t3
    if ip.isEmpty ∨ dp.isEmpty ∨ ¬ t4.isEmpty ∨ digitsToNat dp 0 = 0 then none
    else some ((sg : ℚ) * (digitsToNat ip 0 : ℚ) / (digitsToNat dp 0 : ℚ))
  | '.' :: t3 =>
    let (fp, t4) := takeDigits t3
    if (ip.isEmpty ∧ fp.isEmpty) ∨ ¬ t4.isEmpty then none
    else some ((sg : ℚ) * ((digitsToNat ip 0 : ℚ) +
      (digitsToNat fp 0 : ℚ) / (10 : ℚ) ^ fp.length))
  | _ => none

/-! ### ValueParser: `get_values` (parser.py lines 101-140)

The three classifying regexes of `get_values`,

  * range:        `\d+ ?(-|and|(?:- ?)?to) ?\d`
  * uncertainty:  digits, optional space, the plus-slash-minus sign or ±,
                  optional space, a digit
  * fraction:     `\d+/\d+`

are embedded as backtracking scanners with Python `re` semantics (leftmost
match, alternatives tried left to right, greedy optional space); the first
two return the text captured by group 1, which the source then uses with
`str.split`. -/

/-- The `' ?\d'` tail after a separator alternative (greedy optional space). -/
def afterSepDigit (r : List Char) : Bool :=
  (match r with
   | ' ' :: d :: _ => isDigitC d
   | _ => false) ||
  (match r with
   | d :: _ => isDigitC d
   | [] => false)

/-- Does `w` occur at the start of `r`, with `afterSepDigit` holding after it? -/
def altLit (w : List Char) (r : List Char) : Bool :=
  w.isPrefixOf r && afterSepDigit (r.drop w.length)

/-- Alternative `-` of the range separator group. -/
def altDash (r : List Char) : Bool := altLit ['-'] r

/-- Alternative `and` of the range separator group. -/
def altAnd (r : List Char) : Bool := altLit "and".data r

/-- Alternative `(?:- ?)?to`, attempt with `- ` consumed. -/
def altDashSpTo (r : List Char) : Bool := altLit "- to".data r

/-- Alternative `(?:- ?)?to`, attempt with `-` consumed. -/
def altDashTo (r : List Char) : Bool := altLit "-to".data r

/-- Alternative `(?:- ?)?to`, attempt with nothing optional consumed. -/
def altTo (r : List Char) : Bool := altLit "to".data r

/-- Group 1 of the range regex at position `r` (alternatives in regex order),
returning the captured separator text. -/
def rangeAlts (r : List Char) : Option (List Char) :=
  if altDash r then some ['-']
  else if altAnd r then some "and".data
  else if altDashSpTo r then some "- to".data
  else if altDashTo r then some "-to".data
  else if altTo r then some "to".data
  else none

/-- Alternative plus-slash-minus of the uncertainty separator group. -/
def altPlusMinus (r : List Char) : Bool := altLit "+/-".data r

/-- Alternative `±` of the uncertainty separator group. -/
def altPm (r : List Char) : Bool := altLit ['±'] r

/-- Group 1 of the uncertainty regex at position `r`. -/
def uncerAlts (r : List Char) : Option (List Char) :=
  if altPlusMinus r then some "+/-".data
  else if altPm r then some ['±']
  else none

/-- Attempt `\d+ ?(<alts>)...` at the start of `s`: one or more digits, a
greedy optional space, then the separator group. -/
def trySepAt (alts : List Char → Option (List Char)) (s : List Char) :
    Option (List Char) :=
  match s with
  | [] => none
  | c :: _ =>
    if isDigitC c then
      match (takeDigits s).2 with
      | d :: t =>
        if d = ' ' then
          (match alts t with
           | some sep => some sep
           | none => alts (d :: t))
        else alts (d :: t)
      | [] => alts []
    else none

/-- `re.findall(...)[0]`-style leftmost search: the captured separator of the
first position where the pattern matches. -/
def findSepFrom (alts : List Char → Option (List Char)) :
    List Char → Option (List Char)
  | [] => none
  | c :: r =>
    match trySepAt alts (c :: r) with
    | some sep => some sep
    | none => findSepFrom alts r

/-- `re.findall(r'\d+ ?(-|and|(?:- ?)?to) ?\d', value)` (first capture). -/
def findRangeSep (l : List Char) : Option (List Char) := findSepFrom rangeAlts l

/-- The uncertainty-separator findall of the source (first capture). -/
def findUncerSep (l : List Char) : Option (List Char) := findSepFrom uncerAlts l

/-- `re.findall(r'\d+/\d+', value)` as an existence test (the source only
tests the list for non-emptiness). -/
def hasFract : List Char → Bool
  | [] => false
  | [_] => false
  | [_, _] => false
  | a :: b :: c :: r =>
    (isDigitC a && b = '/' && isDigitC c) || hasFract (b :: c :: r)

/-- Modelled from the spec: the grammar collaborator's `MULTIPLIERS` pattern
fragment (scientific-notation multiplier spellings); the alternatives are
modelled as `x` and `*`.  Embeds
`re.sub(r'(?<=\d)(MULTIPLIERS)10', 'e', value)`: a digit lookbehind, then a
multiplier sign, then the literal `10`, replaced by `e`. -/
def rewriteMultAux : Option Char → Nat → List Char → List Char
  | _, _, [] => []
  | _, 0, l => l
  | prev, fuel + 1, c :: r =>
    if (match prev with | some p => isDigitC p | none => false) &&
       (c = 'x' || c = '*') &&
       (match r with | '1' :: '0' :: _ => true | _ => false) then
      'e' :: rewriteMultAux (some '0') fuel (r.drop 2)
    else
      c :: rewriteMultAux (some c) fuel r

/-- See `rewriteMultAux` (`fuel ≥ length` gives the untruncated behaviour). -/
def rewriteMult (l : List Char) : List Char := rewriteMultAux none l.length l

/-- Modelled from the spec: the grammar collaborator's `UNI_FRAC` table
(vulgar-fraction glyph → ASCII fraction text). -/
def uniFrac (c : Char) : Option (List Char) :=
  if c = '½' then some "1/2".data
  else if c = '⅓' then some "1/3".data
  else if c = '¼' then some "1/4".data
  else if c = '¾' then some "3/4".data
  else none

/-- `re.sub(fracs, callback, value, re.IGNORECASE)`: the fourth positional
argument of `re.sub` is `count`, so `re.IGNORECASE` (= 2) limits the
substitution to the first two glyph occurrences; the callback inserts a space
before the ASCII text. -/
def rewriteFracs (budget : Nat) : List Char → List Char
  | [] => []
  | c :: r =>
    match budget with
    | 0 => c :: r
    | b + 1 =>
      match uniFrac c with
      | some txt => ' ' :: (txt ++ rewriteFracs b r)
      | none => c :: rewriteFracs (b + 1) r

/-- Preprocessing steps of `get_values` (parser.py lines 112-114). -/
def preprocessValue (l : List Char) : List Char :=
  collapseSpaces (rewriteFracs 2 (rewriteMult l))

/-- `re.sub(r'-$', '', i)`: drop a single trailing hyphen. -/
def stripTrailHyphen (l : List Char) : List Char :=
  match l.reverse with
  | '-' :: r => r.reverse
  | _ => l

/-- Option-valued traversal (a Python list comprehension whose element
expression can raise `ValueError`). -/
def optMapList (f : α → Option β) : List α → Option (List β)
  | [] => some []
  | a :: r =>
    match f a, optMapList f r with
    | some b, some bs => some (b :: bs)
    | _, _ => none

/-- `get_values` (parser.py lines 107-140): classify the numeric-literal
group.  `none` models a raised `ValueError`; otherwise the result is
`(uncertainty, values)`. -/
def get_values (value : List Char) : Option (Option ℚ × List ℚ) :=
  let v := preprocessValue value
  match findRangeSep v with
  | some sep =>
    (match optMapList (fun p => parseFloat (stripTrailHyphen p)) (pySplitOn sep v) with
     | some vals => some (none, vals)
     | none => none)
  | none =>
  match findUncerSep v with
  | some sep =>
    (match optMapList parseFloat (pySplitOn sep v) with
     | some (a :: b :: _) => some (some b, [a])
     | _ => none)
  | none =>
  if hasFract v then
    match pySplitWs v with
    | p0 :: p1 :: _ =>
      (match parseFloat p0, parseFraction p1 with
       | some a, some b => some (none, [a + b])
       | _, _ => none)
    | [p0] =>
      (match parseFraction p0 with
       | some a => some (none, [a])
       | none => none)
    | [] => none
  else
    match parseFloat (stripTrailHyphen v) with
    | some a => some (none, [a])
    | none => none

/-! ### SpelledNumberConverter: the accumulator loop of
`extract_spellout_values` (parser.py lines 60-69) -/

/-- Modelled from the spec: the grammar collaborator's `NUMWORDS` table
(number word → (scale, increment); unit and ten words carry scale 1, magnitude
words carry increment 0).  The spelled-number pattern `REG_TXT` only matches
words of this table, so the Python `dict` lookup never raises; unknown words
(unreachable) default to `(1, 0)`. -/
def NUMWORDS (w : List Char) : ℚ × ℚ :=
  if w = "zero".data then (1, 0)
  else if w = "one".data then (1, 1)
  else if w = "two".data then (1, 2)
  else if w = "three".data then (1, 3)
  else if w = "four".data then (1, 4)
  else if w = "five".data then (1, 5)
  else if w = "six".data then (1, 6)
  else if w = "seven".data then (1, 7)
  else if w = "eight".data then (1, 8)
  else if w = "nine".data then (1, 9)
  else if w = "ten".data then (1, 10)
  else if w = "eleven".data then (1, 11)
  else if w = "twelve".data then (1, 12)
  else if w = "twenty".data then (1, 20)
  else if w = "thirty".data then (1, 30)
  else if w = "forty".data then (1, 40)
  else if w = "fifty".data then (1, 50)
  else if w = "sixty".data then (1, 60)
  else if w = "seventy".data then (1, 70)
  else if w = "eighty".data then (1, 80)
  else if w = "ninety".data then (1, 90)
  else if w = "dozen".data then (12, 0)
  else if w = "hundred".data then (100, 0)
  else if w = "thousand".data then (1000, 0)
  else if w = "million".data then (1000000, 0)
  else if w = "billion".data then (1000000000, 0)
  else if w = "trillion".data then (1000000000000, 0)
  else (1, 0)

/-- Token resolution of the accumulator loop (parser.py lines 62-65):
`scale, increment = 1, float(word.lower())`, falling back on the
`NUMWORDS` table when `float` raises. -/
def resolveNumToken (w : List Char) : ℚ × ℚ :=
  match parseFloat (pyLower w) with
  | some q => (1, q)
  | none => NUMWORDS (pyLower w)

/-- The `for word in surface.split()` loop of `extract_spellout_values`
(parser.py lines 60-69), with its two accumulators `curr` and `result`;
returns the final `result + curr`. -/
def spellLoop : List (List Char) → ℚ → ℚ → ℚ
  | [], curr, result => result + curr
  | w :: ws, curr, result =>
    let si := resolveNumToken w
    let curr2 := curr * si.1 + si.2
    if si.1 > 100 then spellLoop ws 0 (result + curr2)
    else spellLoop ws curr2 result

/-- The numeric value `extract_spellout_values` computes for one cleaned
surface. -/
def spellout_value (surface : List Char) : ℚ :=
  spellLoop (pySplitWs surface) 0 0

/-- The specification's description of one step of the conversion: update
`curr := curr * scale + increment` and flush `result += curr; curr := 0`
whenever the token's scale exceeds 100 (state is `(result, curr)`). -/
def spellStep (rc : ℚ × ℚ) (w : List Char) : ℚ × ℚ :=
  let si := resolveNumToken w
  let c := rc.2 * si.1 + si.2
  if si.1 > 100 then (rc.1 + c, 0) else (rc.1, c)

/-! ### OffsetMapper: `substitute_values` (parser.py lines 83-97) and
SurfaceExtractor: `get_surface` (parser.py lines 271-289) -/

/-- One replacement record produced by `extract_spellout_values`:
`{'old_surface': ..., 'old_span': (old_start, old_end), 'new_surface': ...}`. -/
structure Repl where
  old_start : Nat
  old_end : Nat
  old_surface : List Char
  new_surface : List Char

/-- The length change a replacement contributes to the running shift. -/
def delta (v : Repl) : Int :=
  (v.new_surface.length : Int) - v.old_surface.length

/-- Net effect of the recording loop
`for char in range(lo, hi): shifts[char] = s` on the shifts table. -/
def recordFrom (sh : Nat → Int) (lo hi : Nat) (s : Int) : Nat → Int :=
  fun j => if lo ≤ j ∧ j < hi then s else sh j

/-- One iteration of the loop of `substitute_values` (parser.py lines 86-93):
splice the replacement into the running text at the shift-adjusted span,
update the shift, and record the new shift from one past the adjusted start
to the end of the current text.  State is `(shift, final_text, shifts)`.
Python list slicing with the non-negative indices arising here is
`take`/`drop` with clamping. -/
def subStep (st : Int × List Char × (Nat → Int)) (v : Repl) :
    Int × List Char × (Nat → Int) :=
  let first := ((v.old_start : Int) + st.1).toNat
  let second := ((v.old_end : Int) + st.1).toNat
  let ft := st.2.1.take first ++ v.new_surface ++ st.2.1.drop second
  let shift2 := st.1 + (v.new_surface.length : Int) - v.old_surface.length
  (shift2, ft, recordFrom st.2.2 (first + 1) ft.length shift2)

/-- `substitute_values` (parser.py lines 83-97): apply the replacement list,
returning the final text and the shifts table (a `defaultdict(int)`,
modelled as a total function defaulting to 0). -/
def substitute_values (text : List Char) (values : List Repl) :
    List Char × (Nat → Int) :=
  ((values.foldl subStep (0, text, fun _ => 0)).2.1,
   (values.foldl subStep (0, text, fun _ => 0)).2.2)

/-- The span conversion of `get_surface` (parser.py line 276):
`real_span = (span[0] - shifts[span[0]], span[1] - shifts[span[1] - 1])`;
for `span[1] = 0` the Python `defaultdict` yields 0 at key `-1`. -/
def spanBack (sh : Nat → Int) (span : Nat × Nat) : Int × Int :=
  ((span.1 : Int) - sh span.1,
   (span.2 : Int) - (if span.2 = 0 then 0 else sh (span.2 - 1)))

/-- Python slice `l[a:b]` for the non-negative in-range indices arising under
the offset contract (out-of-range clamps like Python; negative indices,
unreachable here, clamp to 0). -/
def sliceI (l : List Char) (a b : Int) : List Char :=
  (l.take b.toNat).drop a.toNat

/-- The loop `while surface ends with ' ' or '-': drop last, end -= 1`
of `get_surface`, on the reversed surface. -/
def trimTrailAux : List Char → Int → List Char × Int
  | [], e => ([], e)
  | c :: r, e =>
    if c = ' ' ∨ c = '-' then trimTrailAux r (e - 1) else (c :: r, e)

/-- The loop `while surface starts with ' ': drop first, start += 1`
of `get_surface`. -/
def trimLeadAux : List Char → Int → List Char × Int
  | [], a => ([], a)
  | c :: r, a =>
    if c = ' ' then trimLeadAux r (a + 1) else (c :: r, a)

/-- `get_surface` (parser.py lines 271-289): convert the match span from
substituted-text coordinates back to original-text coordinates via the shifts
table, slice the original text, and trim trailing space/hyphen and leading
space, adjusting the span. -/
def get_surface (sh : Nat → Int) (orig_text : List Char) (span : Nat × Nat) :
    List Char × (Int × Int) :=
  let rs := spanBack sh span
  let surface := sliceI orig_text rs.1 rs.2
  let tr := trimTrailAux surface.reverse rs.2
  let surface2 := tr.1.reverse
  let tl := trimLeadAux surface2 rs.1
  (tl.1, (tl.2, tr.2))

/-- Well-formedness of a replacement list against a text of length `N`,
starting no earlier than `m`: the claim's hypotheses — sorted by span start,
non-overlapping, spans within the text, surfaces matching their spans, and
non-empty replacement strings (`str(result + curr)` and a comma-stripped
digit group are never empty). -/
def chainb (N : Nat) : Nat → List Repl → Bool
  | _, [] => true
  | m, v :: rest =>
    decide (m ≤ v.old_start) && decide (v.old_start ≤ v.old_end) &&
    decide (v.old_end ≤ N) &&
    decide (v.old_surface.length = v.old_end - v.old_start) &&
    decide (v.new_surface ≠ []) && chainb N v.old_end rest

/-- Cumulative shift contributed by the replacements lying at or before
original index `i` (the replacements with `old_end ≤ i`). -/
def cumShift : List Repl → Nat → Int
  | [], _ => 0
  | v :: rest, i => (if v.old_end ≤ i then delta v else 0) + cumShift rest i

/-- Original index `i` is outside every replaced span. -/
def untouchedb (vs : List Repl) (i : Nat) : Bool :=
  vs.all (fun v => decide (i < v.old_start) || decide (v.old_end ≤ i))

/-- Start of the first remaining replacement (used to delimit the region the
remaining fold can still modify). -/
def lowGuard (N : Nat) : List Repl → Nat
  | [] => N
  | v :: _ => v.old_start

/-! ### Data model (classes.py) and knowledge-base interface -/

/-- A Python exception escaping to (or through) `parse`. -/
inductive PyErr where
  | unboundLocal : PyErr
  | indexError : PyErr
  | valueError : PyErr
deriving DecidableEq

deriving instance DecidableEq for Except

/-- One `{'base': ..., 'power': ...}` dimension record. -/
structure Dim where
  base : List Char
  power : Int
deriving DecidableEq

/-- `classes.Entity` (name, dimensions, uri); the `uri` never influences the
parser's control flow. -/
structure Entity where
  name : List Char
  dimensions : List Dim
  uri : Option (List Char)
deriving DecidableEq

/-- `classes.Unit` (name, entity, dimensions, uri); the `surfaces`/`symbols`
alias sets are knowledge-base data never read by parser.py and are omitted. -/
structure Unit where
  name : List Char
  entity : Entity
  dimensions : List Dim
  uri : Option (List Char)
deriving DecidableEq

/-- `classes.Quantity`. -/
structure Quantity where
  value : ℚ
  unit : Unit
  surface : List Char
  span : Int × Int
  uncertainty : Option ℚ
deriving DecidableEq

/-- Modelled from the spec: the knowledge-base collaborator
(`quantulum.load`), read-only, at its interface boundary: canonical-name
lookup `l.NAMES`, first-candidate surface lookup `l.UNITS[surface][0]` (total:
the grammar's unit pattern is generated from the knowledge base's surface
forms, so the candidate list of a matched surface is non-empty), the
deterministic dimension-key function `l.get_key_from_dimensions`, the derived
compound-unit table `l.DERIVED_UNI` and the derived entity candidates
`l.DERIVED_ENT` (a `defaultdict(list)`). -/
structure KB where
  names : List Char → Unit
  unitsFirst : List Char → Unit
  key : List Dim → List Char
  derived_uni : List Char → Option Unit
  derived_ent : List Char → List Entity

/-- `classifier.USE_CLF`: the ML-disambiguation feature toggle, disabled
(the direct first-candidate lookup path; the classifier is an external
collaborator). -/
def USE_CLF : Bool := false

/-- A match of the master grammar pattern `REG_DIM` (an external
collaborator): capture groups by number (`None` for non-participating
groups) and the match's span in the text it was run on. -/
structure MatchItem where
  groups : Nat → Option (List Char)
  span : Nat × Nat

/-- Python truthiness of `item.group(i)`: `None` and the empty string are
falsy. -/
def truthy (g : Option (List Char)) : Bool :=
  match g with
  | some (_ :: _) => true
  | _ => false

/-! ### UnitResolver: `parse_unit` (parser.py lines 211-234) and
`get_unit` (parser.py lines 238-267) -/

/-- Modelled from the spec: the superscript-digit glyphs of the `UNI_SUPER`
table (the `SUPERSCRIPTS` character class). -/
def isSuperC (c : Char) : Bool := c = '¹' ∨ c = '²' ∨ c = '³'

/-- A power-suffix character: ASCII digit or superscript digit. -/
def isPowChar (c : Char) : Bool := isDigitC c || isSuperC c

/-- `[r.UNI_SUPER[i] if i in r.UNI_SUPER else i for i in power]`: each
element of the findall list (a whole matched run) is looked up as a key of
the single-glyph table, and kept unchanged on a miss. -/
def superRunMap (run : List Char) : List Char :=
  if run = ['¹'] then ['1']
  else if run = ['²'] then ['2']
  else if run = ['³'] then ['3']
  else run

/-- Greedily take a run of power characters. -/
def takePow : List Char → (List Char × List Char)
  | [] => ([], [])
  | c :: r =>
    if isPowChar c then (c :: (takePow r).1, (takePow r).2)
    else ([], c :: r)

/-- `re.findall(r'\-?[0-9SUPERSCRIPTS]+', surface)`: the non-overlapping
left-to-right matched runs, a `-` included only when directly followed by a
power character (fuel ≥ length gives the untruncated behaviour). -/
def powerRunsAux : Nat → List Char → List (List Char)
  | _, [] => []
  | 0, _ => []
  | fuel + 1, c :: r =>
    if c = '-' then
      (match r with
       | d :: _ =>
         if isPowChar d then ('-' :: (takePow r).1) :: powerRunsAux fuel (takePow r).2
         else powerRunsAux fuel r
       | [] => [])
    else if isPowChar c then
      (c :: (takePow r).1) :: powerRunsAux fuel (takePow r).2
    else powerRunsAux fuel r

/-- See `powerRunsAux`. -/
def powerRuns (l : List Char) : List (List Char) := powerRunsAux l.length l

/-- The `\-?[0-9SUPERSCRIPTS]+` tail of the removal pattern at a position
(the backtracking attempt without the `-` always fails, since `-` is not a
power character). -/
def powTail (l : List Char) : Option Nat :=
  match l with
  | '-' :: r =>
    if (match r with | d :: _ => isPowChar d | [] => false) then
      some (1 + (takePow r).1.length)
    else none
  | _ =>
    if (match l with | d :: _ => isPowChar d | [] => false) then
      some (takePow l).1.length
    else none

/-- Match length of `re.sub(r'\^?\-?[0-9SUPERSCRIPTS]+', ...)`'s pattern at
a position (the backtracking attempt without the `^` always fails, since `^`
is neither `-` nor a power character). -/
def tryPowAt (l : List Char) : Option Nat :=
  match l with
  | '^' :: r => (powTail r).map (· + 1)
  | _ => powTail l

/-- `re.sub(r'\^?\-?[0-9SUPERSCRIPTS]+', '', surface)` (parser.py line 221);
fuel ≥ length gives the untruncated behaviour (every match is non-empty). -/
def removePow : Nat → List Char → List Char
  | _, [] => []
  | 0, l => l
  | fuel + 1, c :: r =>
    match tryPowAt (c :: r) with
    | some n => removePow fuel ((c :: r).drop n)
    | none => c :: removePow fuel r

/-- `re.findall(r'\bword\b', l) != []` for a word made of word characters:
an occurrence of `w` preceded and followed by a non-word character or a text
boundary. -/
def containsWordAux (w : List Char) : Bool → List Char → Bool
  | _, [] => false
  | prevIsWord, c :: r =>
    (!prevIsWord && w.isPrefixOf (c :: r) &&
      (match (c :: r).drop w.length with
       | d :: _ => !isWordC d
       | [] => true)) ||
    containsWordAux w (isWordC c) r

/-- See `containsWordAux`. -/
def containsWord (w l : List Char) : Bool := containsWordAux w false l

/-- `re.search(r'\bword\b', l, re.IGNORECASE)`. -/
def containsWordCI (w l : List Char) : Bool :=
  containsWord (pyLower w) (pyLower l)

/-- `re.sub(r'\bword\b', '', l)` for a word made of word characters (all
word-bounded occurrences removed, scanning left to right; fuel ≥ length). -/
def removeWordAux (w : List Char) : Bool → Nat → List Char → List Char
  | _, _, [] => []
  | _, 0, l => l
  | prevIsWord, fuel + 1, c :: r =>
    if !prevIsWord && w.isPrefixOf (c :: r) &&
       (match (c :: r).drop w.length with
        | d :: _ => !isWordC d
        | [] => true) then
      removeWordAux w true fuel ((c :: r).drop w.length)
    else c :: removeWordAux w (isWordC c) fuel r

/-- See `removeWordAux`. -/
def removeWord (w l : List Char) : List Char := removeWordAux w false l.length l

/-- `parse_unit` (parser.py lines 211-234): parse surface and power from one
unit-surface capture group.  Strips abbreviation periods, then detects a
power as digit/superscript runs (all runs joined and parsed by `int`, which
raises `ValueError` on e.g. a stray embedded minus — propagated, uncaught),
or the words `cubed`/`squared`, defaulting to 1; the `slash` flag negates the
parsed power in every branch. -/
def parse_unit (item : MatchItem) (group : Nat) (slash : Bool) :
    Except PyErr (List Char × Int) :=
  let surface := ((item.groups group).getD []).filter (fun c => !(c = '.'))
  let power := powerRuns surface
  if power ≠ [] then
    match parseInt ((power.map superRunMap).join) with
    | some p =>
      .ok (removePow surface.length surface, if slash then -1 * p else p)
    | none => .error .valueError
  else if containsWord "cubed".data surface then
    .ok (pyStrip (removeWord "cubed".data surface), if slash then -3 else 3)
  else if containsWord "squared".data surface then
    .ok (pyStrip (removeWord "squared".data surface), if slash then -2 else 2)
  else
    .ok (surface, if slash then -1 else 1)

/-- The unit-surface capture groups of the master pattern. -/
def group_units : List Nat := [1, 4, 6, 8, 10]

/-- The operator capture groups of the master pattern. -/
def group_operators : List Nat := [3, 5, 7, 9]

/-- `sorted(group_units + group_operators)`. -/
def sortedGroups : List Nat := [1, 3, 4, 5, 6, 7, 8, 9, 10]

/-- `build_unit_name` (parser.py lines 144-166), before the final strip. -/
def build_unit_name_aux : List Dim → List Char
  | [] => []
  | d :: rest =>
    (if d.power < 0 then "per ".data else []) ++
    (let p := d.power.natAbs
     if p = 1 then d.base
     else if p = 2 then "square ".data ++ d.base
     else if p = 3 then "cubic ".data ++ d.base
     else if 3 < p then d.base ++ " to the ".data ++ (Nat.repr p).data
     else []) ++
    " ".data ++ build_unit_name_aux rest

/-- `build_unit_name` (parser.py lines 144-166). -/
def build_unit_name (dims : List Dim) : List Char :=
  pyStrip (build_unit_name_aux dims)

/-- Python string `<` (lexicographic by code point). -/
def listStrLt : List Char → List Char → Bool
  | [], [] => false
  | [], _ :: _ => true
  | _ :: _, [] => false
  | a :: as, b :: bs => if a = b then listStrLt as bs else decide (a < b)

/-- Stable insertion for `sorted(new_dimensions, key=lambda x: x['base'])`. -/
def insertByBase (d : Dim) : List Dim → List Dim
  | [] => [d]
  | e :: rest =>
    if listStrLt e.base d.base then e :: insertByBase d rest
    else d :: e :: rest

/-- `sorted(new_dimensions, key=lambda x: x['base'])` (stable, ascending). -/
def sortByBase : List Dim → List Dim
  | [] => []
  | d :: rest => insertByBase d (sortByBase rest)

/-- `get_entity_from_dimensions` (parser.py lines 186-207), on the direct
lookup path (`USE_CLF` disabled): map each base to its owning entity's name,
re-sort alphabetically, look up the derived-entity candidates, and fall back
to a synthesized `unknown` entity. -/
def get_entity_from_dimensions (kb : KB) (dims : List Dim) : Entity :=
  let new_dims := dims.map (fun d => Dim.mk (kb.names d.base).entity.name d.power)
  let final_dimensions := sortByBase new_dims
  match (kb.derived_ent (kb.key final_dimensions)).head? with
  | some e => e
  | none => Entity.mk "unknown".data new_dims none

/-- `get_unit_from_dimensions` (parser.py lines 170-182): look up a
pre-derived compound unit by the ordered dimension key, else synthesize. -/
def get_unit_from_dimensions (kb : KB) (dims : List Dim) : Unit :=
  match kb.derived_uni (kb.key dims) with
  | some u => u
  | none =>
    Unit.mk (build_unit_name dims) (get_entity_from_dimensions kb dims) dims none

/-- The `for group in sorted(group_units + group_operators)` loop of
`get_unit` (parser.py lines 248-260): build the ordered dimension list,
threading the `slash` flag.  A falsy group is skipped; a unit group is parsed
with the current flag and resolved through the first-candidate lookup
(`USE_CLF` disabled); an operator group, when the flag is still false, sets
it if the group contains `/` or ` per `. -/
def unitDimsLoop (kb : KB) (item : MatchItem) :
    List Nat → Bool → Except PyErr (List Dim)
  | [], _ => .ok []
  | g :: rest, slash =>
    if truthy (item.groups g) then
      if group_units.contains g then
        match parse_unit item g slash with
        | .error e => .error e
        | .ok sp =>
          (unitDimsLoop kb item rest slash).map
            (fun ds => Dim.mk (kb.unitsFirst sp.1).name sp.2 :: ds)
      else
        unitDimsLoop kb item rest
          (if slash then slash
           else containsSub "/".data ((item.groups g).getD []) ||
                containsSub " per ".data ((item.groups g).getD []))
    else unitDimsLoop kb item rest slash

/-- `get_unit` (parser.py lines 238-267): the canonical dimensionless unit
when no unit-surface group participates, otherwise the loop above followed by
`get_unit_from_dimensions`.  The `text` argument of the source (surrounding
context, read only by the disabled classifier path) is omitted, as in
`get_unit_from_dimensions` and `get_entity_from_dimensions`. -/
def get_unit (kb : KB) (item : MatchItem) : Except PyErr Unit :=
  let item_units := group_units.filterMap
    (fun i => if truthy (item.groups i) then item.groups i else none)
  if item_units.length = 0 then .ok (kb.names "dimensionless".data)
  else
    (unitDimsLoop kb item sortedGroups false).map
      (fun dims => get_unit_from_dimensions kb dims)

/-- The specification's division-marker test for an operator group's text. -/
def isDivMarkerG (g : Option (List Char)) : Bool :=
  containsSub "/".data (g.getD []) || containsSub " per ".data (g.getD [])

/-- The specification's description of the `slash` flag after processing the
groups `pre`: true exactly when some operator group among them participates
(is truthy) and is a division marker. -/
def divSeen (item : MatchItem) (pre : List Nat) : Bool :=
  pre.any (fun g => group_operators.contains g && truthy (item.groups g) &&
    isDivMarkerG (item.groups g))

/-- The specification's description of the dimension list: walking the groups
in order, every participating unit-surface group contributes its base (first
candidate of the surface lookup) with its slash-free parsed power, negated
exactly when a division marker occurred among the earlier groups. -/
def specDimsFrom (kb : KB) (item : MatchItem) :
    List Nat → List Nat → List Dim
  | _, [] => []
  | pre, g :: rest =>
    (if truthy (item.groups g) && group_units.contains g then
      (match parse_unit item g false with
       | .ok sp =>
         [Dim.mk (kb.unitsFirst sp.1).name
           ((if divSeen item pre then -1 else 1) * sp.2)]
       | .error _ => [])
     else []) ++ specDimsFrom kb item (pre ++ [g]) rest

/-! ### QuantityBuilder: `build_quantity` (parser.py lines 306-384) -/

/-- Modelled from the spec: the `r.SUFFIXES` table (currency magnitude letter
→ multiplier; thousand/million/billion/trillion). -/
def SUFFIXES (c : Char) : ℚ :=
  if c = 'K' then 1000
  else if c = 'M' then 1000000
  else if c = 'B' then 1000000000
  else if c = 'T' then 1000000000000
  else 1

/-- A currency magnitude letter. -/
def isKMBT (c : Char) : Bool := c = 'K' ∨ c = 'M' ∨ c = 'B' ∨ c = 'T'

/-- The ordinal pattern `1st|2nd|3rd|[04-9]th` at the current position. -/
def isOrdinalAt (l : List Char) : Bool :=
  "1st".data.isPrefixOf l || "2nd".data.isPrefixOf l || "3rd".data.isPrefixOf l ||
  (match l with
   | c :: 't' :: 'h' :: _ => c = '0' || ('4' ≤ c && c ≤ '9')
   | _ => false)

/-- `re.search(r'1st|2nd|3rd|[04-9]th', surface)`. -/
def hasOrdinal : List Char → Bool
  | [] => false
  | c :: r => isOrdinalAt (c :: r) || hasOrdinal r

/-- After the uppercase run of the code pattern: skip uppercase, require a
digit. -/
def codeAfterUppers : List Char → Bool
  | [] => false
  | c :: r => if isUpperC c then codeAfterUppers r else isDigitC c

/-- The `[A-Z]+\d+` tail of the code pattern. -/
def codeTail : List Char → Bool
  | [] => false
  | u :: rest => isUpperC u && codeAfterUppers rest

/-- `re.search(r'\d+[A-Z]+\d+', surface)` (alphanumeric product code). -/
def hasCode : List Char → Bool
  | [] => false
  | c :: r => (isDigitC c && codeTail r) || hasCode r

/-- The discard condition of `build_quantity` (parser.py lines 309-312):
a bare article/`one`, an ordinal suffix, a product code, or the idiom
`a second` (case-insensitive, word-bounded). -/
def discardCond (surface : List Char) : Bool :=
  (pyLower surface = "a".data || pyLower surface = "an".data ||
   pyLower surface = "one".data) ||
  hasOrdinal surface || hasCode surface ||
  containsWordCI "a second".data surface

/-- `re.match(r'[1-2]\d\d0s', surface)` (prefix match). -/
def matchesDecade (l : List Char) : Bool :=
  match l with
  | c0 :: c1 :: c2 :: c3 :: c4 :: _ =>
    (c0 = '1' || c0 = '2') && isDigitC c1 && isDigitC c2 && c3 = '0' && c4 = 's'
  | _ => false

/-- The characters forbidden right after the opening quote in
`is_quote_artifact`'s pattern. -/
def isForbiddenQ (c : Char) : Bool :=
  c = ' ' ∨ c = '.' ∨ c = ',' ∨ c = ':' ∨ c = ';' ∨ c = '?' ∨ c = '!' ∨
  c = '(' ∨ c = ')' ∨ c = '*' ∨ c = '+' ∨ c = '-'

/-- A quote character (double or single). -/
def isQuoteC (c : Char) : Bool := c = '"' ∨ c = '\''

/-- Index of the first quote character (the lazy `.*?` before the closing
quote; `.` does not match a newline). -/
def findQuoteIdx : List Char → Option Nat
  | [] => none
  | c :: r =>
    if isQuoteC c then some 0
    else if c = '\n' then none
    else (findQuoteIdx r).map (· + 1)

/-- Length of a match of `("|')[^ .,:;?!()*+-].*?("|')` at the current
position. -/
def quoteMatchLen (l : List Char) : Option Nat :=
  match l with
  | q :: c :: r =>
    if isQuoteC q && !isForbiddenQ c then
      (findQuoteIdx r).map (· + 3)
    else none
  | _ => none

/-- The `finditer` scan of `is_quote_artifact` (parser.py lines 293-302):
true when some (non-overlapping, left-to-right) quoted-span match ends
exactly at `tgt` (fuel ≥ length gives the untruncated behaviour). -/
def quoteScan : Nat → Nat → List Char → Nat → Bool
  | _, _, [], _ => false
  | 0, _, _, _ => false
  | fuel + 1, pos, c :: r, tgt =>
    match quoteMatchLen (c :: r) with
    | some n => (pos + n = tgt) || quoteScan fuel (pos + n) ((c :: r).drop n) tgt
    | none => quoteScan fuel (pos + 1) r tgt

/-- `is_quote_artifact` (parser.py lines 293-302). -/
def is_quote_artifact (orig_text : List Char) (span : Nat × Nat) : Bool :=
  quoteScan orig_text.length 0 orig_text span.2

/-- `re.findall(r'\d(K|M|B|T)\b(.*?)$', surface)[0]`: the first position
with a digit, a magnitude letter, a word boundary; the second capture is the
remainder of the string. -/
def findDigitSuffix : List Char → Option (Char × List Char)
  | [] => none
  | c :: r =>
    match r with
    | d :: rest =>
      if isDigitC c && isKMBT d &&
         (match rest with | e :: _ => !isWordC e | [] => true) then
        some (d, rest)
      else findDigitSuffix r
    | [] => none

/-- `re.findall(re.escape(surface) + r'(K|M|B|T)\b', orig_text)[0]`: the
magnitude letter after the FIRST occurrence (anywhere in the original text)
of the surface followed by such a letter at a word boundary. -/
def findSurfaceSuffix (surface : List Char) : List Char → Option Char
  | [] => none
  | c :: r =>
    (if surface.isPrefixOf (c :: r) then
      (match (c :: r).drop surface.length with
       | d :: rest =>
         if isKMBT d && (match rest with | e :: _ => !isWordC e | [] => true) then
           some d
         else none
       | [] => none)
     else none).orElse (fun _ => findSurfaceSuffix surface r)

/-- The guard of the currency-suffix rule (parser.py lines 317-318):
`unit.entity.dimensions and unit.entity.dimensions[0]['base'] == 'currency'`
(Python truthiness of the possibly empty list, then the head's base). -/
def currencyGuard (u : Unit) : Bool :=
  match u.entity.dimensions.head? with
  | some d0 => d0.base = "currency".data
  | none => false

/-- `build_quantity` (parser.py lines 306-384): the mutually exclusive
correction chain (discard, currency-suffix, decade, inch/preposition,
quote-artifact, `time`) followed by the per-value emission.  `.ok none`
models the discard `return`; `.error .indexError` models the uncaught
`IndexError` raised by `unit.dimensions[-1]` (line 349) when the dimensions
list is empty and none of the earlier rules applied.  In the compound
currency branch the lookup `l.UNITS[...][0]` is modelled total (coherent
knowledge base), so the caught `IndexError` there comes from the absent
suffix only. -/
def build_quantity (kb : KB) (orig_text text : List Char) (item : MatchItem)
    (values : List ℚ) (unit : Unit) (surface : List Char) (span : Int × Int)
    (uncert : Option ℚ) : Except PyErr (Option (List Quantity)) :=
  if discardCond surface then .ok none
  else if currencyGuard unit then
    (if unit.dimensions.length > 1 then
      match findDigitSuffix surface with
      | some su =>
        let values2 := values.map (fun v => v * SUFFIXES su.1)
        let unit2 := kb.unitsFirst ((unit.dimensions.head?.map Dim.base).getD [])
        let sr :=
          if su.2 ≠ [] then
            (surface.take ((findSubIdx su.2 surface).getD 0),
             (span.1, span.2 - su.2.length))
          else (surface, span)
        .ok (some (values2.map (fun v => Quantity.mk v unit2 sr.1 sr.2 uncert)))
      | none =>
        .ok (some (values.map (fun v => Quantity.mk v unit surface span uncert)))
    else
      match findSurfaceSuffix surface orig_text with
      | some c =>
        .ok (some ((values.map (fun v => v * SUFFIXES c)).map
          (fun v => Quantity.mk v unit (surface ++ [c]) (span.1, span.2 + 1) uncert)))
      | none =>
        .ok (some (values.map (fun v => Quantity.mk v unit surface span uncert))))
  else if matchesDecade surface then
    .ok (some (values.map (fun v =>
      Quantity.mk v (kb.names "dimensionless".data) surface.dropLast
        (span.1, span.2 - 1) uncert)))
  else
    match unit.dimensions.getLast? with
    | none => .error .indexError
    | some dl =>
      if dl.base = "inch".data && endsWith " in".data surface &&
         !(containsSub ['/'] surface) then
        let unit2 :=
          if unit.dimensions.length > 1 then
            get_unit_from_dimensions kb unit.dimensions.dropLast
          else kb.names "dimensionless".data
        .ok (some (values.map (fun v =>
          Quantity.mk v unit2 (surface.take (surface.length - 3))
            (span.1, span.2 - 3) uncert)))
      else if is_quote_artifact text item.span then
        let unit2 :=
          if unit.dimensions.length > 1 then
            get_unit_from_dimensions kb unit.dimensions.dropLast
          else kb.names "dimensionless".data
        .ok (some (values.map (fun v =>
          Quantity.mk v unit2 (surface.take (surface.length - 1))
            (span.1, span.2 - 1) uncert)))
      else if endsWith " time".data surface && unit.dimensions.length > 1 &&
          dl.base = "count".data then
        .ok (some (values.map (fun v =>
          Quantity.mk v (get_unit_from_dimensions kb unit.dimensions.dropLast)
            (surface.take (surface.length - 5)) (span.1, span.2 - 5) uncert)))
      else
        .ok (some (values.map (fun v => Quantity.mk v unit surface span uncert)))

/-! ### TextNormalizer: `clean_text` (parser.py lines 388-400) -/

/-- The character map of `clean_text` (multiplication sign and the minus
variants). -/
def cleanCharMap (c : Char) : Char :=
  if c = '×' then 'x'
  else if c = '–' then '-'
  else if c = '−' then '-'
  else c

/-- The genitive substitution of `clean_text`: apostrophe-s after a word
character and before a boundary, or s-apostrophe after a word character and
not before a word character, replaced by two spaces (length preserving;
fuel ≥ length gives the untruncated behaviour). -/
def genitiveSub (prev : Option Char) : Nat → List Char → List Char
  | _, [] => []
  | 0, l => l
  | fuel + 1, c :: r =>
    let prevW := match prev with | some p => isWordC p | none => false
    if prevW && c = '\'' &&
       (match r with
        | 's' :: rr => (match rr with | e :: _ => !isWordC e | [] => true)
        | _ => false) then
      ' ' :: ' ' :: genitiveSub (some 's') fuel (r.drop 1)
    else if prevW && c = 's' &&
       (match r with
        | '\'' :: rr => (match rr with | e :: _ => !isWordC e | [] => true)
        | _ => false) then
      ' ' :: ' ' :: genitiveSub (some '\'') fuel (r.drop 1)
    else c :: genitiveSub (some c) fuel r

/-- `clean_text` (parser.py lines 388-400). -/
def clean_text (text : List Char) : List Char :=
  genitiveSub none (text.map cleanCharMap).length (text.map cleanCharMap)

/-! ### SpelledNumberConverter: `clean_surface` (parser.py lines 20-49) and
`extract_spellout_values` (parser.py lines 53-79) -/

/-- Modelled from the spec: the `r.SCALES` magnitude-word set. -/
def SCALES : List (List Char) :=
  ["hundred".data, "thousand".data, "million".data, "billion".data,
   "trillion".data]

/-- Modelled from the spec: the `r.UNITS` number-word list. -/
def UNITS_WORDS : List (List Char) :=
  ["one".data, "two".data, "three".data, "four".data, "five".data,
   "six".data, "seven".data, "eight".data, "nine".data]

/-- Modelled from the spec: the `r.TENS` number-word list. -/
def TENS_WORDS : List (List Char) :=
  ["twenty".data, "thirty".data, "forty".data, "fifty".data, "sixty".data,
   "seventy".data, "eighty".data, "ninety".data]

/-- One pass of the stripping loop of `clean_surface` (parser.py lines
26-38): the two start words, then the two end words, each applied to the
current surface in sequence; returns the new surface, span and the `found`
flag. -/
def csPass (surface : List Char) (span : Nat × Nat) :
    List Char × (Nat × Nat) × Bool :=
  let r1 :=
    if "and".data.isPrefixOf (pyLower surface) then
      (surface.drop 3, (span.1 + 3, span.2), true)
    else (surface, span, false)
  let r2 :=
    if " ".data.isPrefixOf (pyLower r1.1) then
      (r1.1.drop 1, (r1.2.1.1 + 1, r1.2.1.2), true)
    else r1
  let r3 :=
    if endsWith " and".data (pyLower r2.1) then
      (r2.1.take (r2.1.length - 4), (r2.2.1.1, r2.2.1.2 - 4), true)
    else r2
  let r4 :=
    if endsWith " ".data (pyLower r3.1) then
      (r3.1.take (r3.1.length - 1), (r3.2.1.1, r3.2.1.2 - 1), true)
    else r3
  r4

/-- The `while found` loop of `clean_surface`; every pass with the flag set
strips at least one character, so fuel ≥ length + 1 gives the untruncated
behaviour. -/
def csLoop : Nat → List Char → (Nat × Nat) → List Char × (Nat × Nat)
  | 0, s, sp => (s, sp)
  | fuel + 1, s, sp =>
    let r := csPass s sp
    if r.2.2 then csLoop fuel r.1 r.2.1 else (r.1, r.2.1)

/-- `' '.join(words)`. -/
def joinWs : List (List Char) → List Char
  | [] => []
  | [w] => w
  | w :: ws => w ++ ' ' :: joinWs ws

/-- `clean_surface` (parser.py lines 20-49): replace hyphens by spaces,
strip the spurious start/end words, discard an empty residue, and drop a
leading article followed by a unit-like word. -/
def clean_surface (surface0 : List Char) (span0 : Nat × Nat) :
    Option (List Char × (Nat × Nat)) :=
  let s1 := surface0.map (fun c => if c = '-' then ' ' else c)
  let r := csLoop (s1.length + 1) s1 span0
  if r.1 = [] then none
  else
    let split := pySplitWs (pyLower r.1)
    let keep :=
      match split with
      | w0 :: _ :: _ =>
        (w0 = "one".data || w0 = "a".data || w0 = "an".data) &&
        ((UNITS_WORDS ++ TENS_WORDS).contains ((split.drop 1).headD []))
      | _ => false
    if keep then
      some (joinWs ((pySplitWs r.1).drop 1),
        (r.2.1 + ((pySplitWs r.1).headD []).length + 1, r.2.2))
    else some (r.1, r.2)

/-- The `(,\d{3})+` tail of the comma-grouped digit pattern: the number of
characters consumed by the greedy repetition. -/
def commaGroupsLen : List Char → Nat
  | ',' :: a :: b :: c :: r =>
    if isDigitC a && isDigitC b && isDigitC c then 4 + commaGroupsLen r
    else 0
  | _ => 0

/-- `re.finditer(r'\d+(,\d{3})+', text)` (parser.py lines 74-77): the
non-overlapping left-to-right matches, as replacement records with the
commas stripped (fuel ≥ length gives the untruncated behaviour). -/
def commaScan : Nat → Nat → List Char → List Repl
  | _, _, [] => []
  | 0, _, _ => []
  | fuel + 1, pos, c :: r =>
    if isDigitC c then
      let ds := takeDigits (c :: r)
      let g := commaGroupsLen ds.2
      if 0 < g then
        let n := ds.1.length + g
        let grp := (c :: r).take n
        Repl.mk pos (pos + n) grp (grp.filter (fun ch => !(ch = ','))) ::
          commaScan fuel (pos + n) ((c :: r).drop n)
      else commaScan fuel (pos + 1) r
    else commaScan fuel (pos + 1) r

/-- Rendering of `str(result + curr)` (a Python float) as a decimal string;
the spelled-number accumulator produces integral values in practice, and no
claim depends on the exact rendering of a non-integral float. -/
def ratToStr (q : ℚ) : List Char :=
  if q.den = 1 then (Int.repr q.num).data ++ ".0".data
  else (Int.repr q.num).data ++ '/' :: (Nat.repr q.den).data

/-- Stable insertion for `sorted(values, key=lambda x: x['old_span'][0])`. -/
def insertRepl (v : Repl) : List Repl → List Repl
  | [] => [v]
  | w :: rest =>
    if w.old_start < v.old_start then w :: insertRepl v rest
    else v :: w :: rest

/-- See `insertRepl` (stable, ascending by span start). -/
def sortRepls : List Repl → List Repl
  | [] => []
  | v :: rest => insertRepl v (sortRepls rest)

/-- `extract_spellout_values` (parser.py lines 53-79).  The `REG_TXT`
spelled-number matches are the external grammar collaborator's output; they
are passed in as `(group(0), span)` pairs.  Each surviving match is cleaned,
filtered against the magnitude-word set, and converted through the
accumulator loop; the comma-grouped digit matches are appended and the whole
list is sorted by span start (Python's stable sort). -/
def extract_spellout_values (text : List Char)
    (ms : List (List Char × (Nat × Nat))) : List Repl :=
  let spell := ms.filterMap (fun m =>
    match clean_surface m.1 m.2 with
    | none => none
    | some sp =>
      if SCALES.contains (pyLower sp.1) then none
      else some (Repl.mk sp.2.1 sp.2.2 sp.1 (ratToStr (spellout_value sp.1))))
  sortRepls (spell ++ commaScan text.length 0 text)

/-! ### Orchestrator: `parse` (parser.py lines 404-444) and
`inline_parse` (parser.py lines 448-459) -/

/-- The `for item in r.REG_DIM.finditer(text)` loop of `parse` (parser.py
lines 422-439).  The running `(uncert, values)` pair is the loop-carried
Python local state: `none` models the names being unbound (no successful
`get_values` yet); a failed `get_values` (caught `ValueError`) leaves the
previous state in place, exactly as in the source; reading the unbound
`uncert` at the `build_quantity` call site raises `UnboundLocalError`. -/
def parseLoop (kb : KB) (orig t2 : List Char) (sh : Nat → Int) :
    List MatchItem → Option (Option ℚ × List ℚ) → List Quantity →
    Except PyErr (List Quantity)
  | [], _, acc => .ok acc
  | m :: rest, st, acc =>
    let st2 :=
      match get_values ((m.groups 2).getD []) with
      | some r => some r
      | none => st
    match get_unit kb m with
    | .error e => .error e
    | .ok unit =>
      let ssp := get_surface sh orig m.span
      match st2 with
      | none => .error .unboundLocal
      | some uv =>
        match build_quantity kb orig t2 m uv.2 unit ssp.1 ssp.2 uv.1 with
        | .error e => .error e
        | .ok objs => parseLoop kb orig t2 sh rest st2 (acc ++ objs.getD [])

/-- `parse` (parser.py lines 404-444): normalize, convert spelled numbers
(building the shift table), then run the match loop.  The two `finditer`
streams are the external grammar collaborator's output: `spellMatches` for
`REG_TXT` over the cleaned text, `dimMatches` for `REG_DIM` over the
substituted text.  The logging/verbosity plumbing carries no extraction
behaviour and is omitted. -/
def parse (kb : KB) (text : List Char)
    (spellMatches : List (List Char × (Nat × Nat)))
    (dimMatches : List MatchItem) : Except PyErr (List Quantity) :=
  let orig_text := text
  let ct := clean_text text
  let values := extract_spellout_values ct spellMatches
  let sub := substitute_values ct values
  parseLoop kb orig_text sub.1 sub.2 dimMatches none []

/-- `str(quantity)` (classes.py lines 20-24), with the `%g` float rendering
modelled by `ratToStr`'s integral form; no claim depends on the rendering. -/
def quantityStr (q : Quantity) : List Char :=
  "Quantity(".data ++
  (if q.value.den = 1 then (Int.repr q.value.num).data else ratToStr q.value) ++
  ", ".data ++ Char.ofNat 34 :: (q.unit.name ++ Char.ofNat 34 :: ")".data)

/-- The insertion loop of `inline_parse` (parser.py lines 452-457): insert
` {str(quantity)}` after each quantity's span end, shifted by the cumulative
length of the earlier insertions (Python slicing at an index beyond the text
length clamps, appending at the end). -/
def inlineInsertLoop : List Quantity → Nat → List Char → List Char
  | [], _, t => t
  | q :: rest, shift, t =>
    let index := (q.span.2 + (shift : Int)).toNat
    let toAdd := ' ' :: Char.ofNat 123 :: (quantityStr q ++ [Char.ofNat 125])
    inlineInsertLoop rest (shift + toAdd.length)
      (t.take index ++ toAdd ++ t.drop index)

/-- `inline_parse` (parser.py lines 448-459). -/
def inline_parse (kb : KB) (text : List Char)
    (spellMatches : List (List Char × (Nat × Nat)))
    (dimMatches : List MatchItem) : Except PyErr (List Char) :=
  (parse kb text spellMatches dimMatches).map
    (fun parsed => inlineInsertLoop parsed 0 text)

/-! ### Concrete scenario data (a small spec-conforming knowledge base and
grammar matches) used by the concrete evaluations -/

/-- The canonical dimensionless entity (spec section 3: dimensions possibly
empty). -/
def testDimlessE : Entity := Entity.mk "dimensionless".data [] none

/-- The canonical dimensionless unit (spec sections 3 and 4.5: empty
dimensions for primitive/dimensionless units). -/
def testDimlessU : Unit := Unit.mk "dimensionless".data testDimlessE [] none

/-- A length entity. -/
def testLengthE : Entity := Entity.mk "length".data [] none

/-- The metre. -/
def testMetreU : Unit :=
  Unit.mk "metre".data testLengthE [Dim.mk "metre".data 1] none

/-- A currency entity whose dimension list is rooted in `currency`
(spec section 4.7 rule 2: a unit's entity "ultimately rooted in a currency
dimension"). -/
def testCurrencyE : Entity :=
  Entity.mk "currency".data [Dim.mk "currency".data 1] none

/-- The dollar. -/
def testDollarU : Unit :=
  Unit.mk "dollar".data testCurrencyE [Dim.mk "dollar".data 1] none

/-- A small knowledge base holding the units above. -/
def testKB : KB := {
  names := fun s => if s = "dimensionless".data then testDimlessU else testMetreU
  unitsFirst := fun s => if s = "$".data then testDollarU else testMetreU
  key := fun dims => (dims.map (fun d => d.base ++ [';'])).join
  derived_uni := fun k =>
    if k = "metre;".data then some testMetreU
    else if k = "dollar;".data then some testDollarU
    else none
  derived_ent := fun _ => [] }

/-- A `REG_DIM` match of `3 m` at span (0,3): numeric group `3`, unit group
`m`. -/
def matchThree : MatchItem :=
  MatchItem.mk (fun n =>
    if n = 2 then some "3".data
    else if n = 4 then some "m".data
    else none) (0, 3)

/-- A match of `1/2/3 m` at span (8,15) (in `3 m and 1/2/3 m`): the numeric
group `1/2/3` fails all four value strategies (`Fraction` raises). -/
def matchFrac : MatchItem :=
  MatchItem.mk (fun n =>
    if n = 2 then some "1/2/3".data
    else if n = 4 then some "m".data
    else none) (8, 15)

/-- The same match shape at span (0,7) (in `1/2/3 m` alone). -/
def matchFracFirst : MatchItem :=
  MatchItem.mk (fun n =>
    if n = 2 then some "1/2/3".data
    else if n = 4 then some "m".data
    else none) (0, 7)

/-- A bare-number match `7` at span (0,1): no unit group, so the resolved
unit is the canonical dimensionless unit with an empty dimensions list. -/
def matchBare : MatchItem :=
  MatchItem.mk (fun n => if n = 2 then some "7".data else none) (0, 1)

/-- A currency match `$3` at span (9,11), at the very end of
`$3K then $3`: numeric group `3`, unit group `$`. -/
def matchDollar : MatchItem :=
  MatchItem.mk (fun n =>
    if n = 2 then some "3".data
    else if n = 1 then some "$".data
    else none) (9, 11)

/-! ### Lemmas about the separator scanners and `get_values` (claim C6) -/

theorem takeDigits_append (l : List Char) :
    (takeDigits l).1 ++ (takeDigits l).2 = l := by
  induction l with
  | nil => rfl
  | cons c r ih =>
    by_cases h : isDigitC c = true <;> simp [takeDigits, h, ih]

theorem containsSub_of_isPrefixOf {sep l : List Char} (h : sep.isPrefixOf l = true) :
    containsSub sep l = true := by
  cases l with
  | nil =>
    cases sep with
    | nil => rfl
    | cons a as => simp [List.isPrefixOf] at h
  | cons c r => simp [containsSub, h]

theorem containsSub_cons {sep r : List Char} (c : Char)
    (h : containsSub sep r = true) : containsSub sep (c :: r) = true := by
  simp [containsSub, h]

theorem containsSub_append {sep y : List Char} (x : List Char)
    (h : containsSub sep y = true) : containsSub sep (x ++ y) = true := by
  induction x with
  | nil => simpa
  | cons c xs ih => simpa using containsSub_cons c ih

theorem altLit_isPrefixOf {w r : List Char} (h : altLit w r = true) :
    w.isPrefixOf r = true := by
  simp only [altLit, Bool.and_eq_true] at h
  exact h.1

theorem rangeAlts_sound {r sep : List Char} (h : rangeAlts r = some sep) :
    sep.isPrefixOf r = true ∧ sep ≠ [] := by
  unfold rangeAlts at h
  split_ifs at h with h1 h2 h3 h4 h5 <;>
    first
    | (cases h
       exact ⟨altLit_isPrefixOf (by assumption), by simp⟩)
    | exact absurd h (by simp)

theorem uncerAlts_sound {r sep : List Char} (h : uncerAlts r = some sep) :
    sep.isPrefixOf r = true ∧ sep ≠ [] := by
  unfold uncerAlts at h
  split_ifs at h with h1 h2 <;>
    first
    | (cases h
       exact ⟨altLit_isPrefixOf (by assumption), by simp⟩)
    | exact absurd h (by simp)

theorem trySepAt_sound {alts : List Char → Option (List Char)}
    (hA : ∀ r sep, alts r = some sep → sep.isPrefixOf r = true ∧ sep ≠ [])
    {s sep : List Char} (h : trySepAt alts s = some sep) :
    containsSub sep s = true ∧ sep ≠ [] := by
  cases s with
  | nil => exact absurd h (by simp [trySepAt])
  | cons c s0 =>
    simp only [trySepAt] at h
    by_cases hd : isDigitC c = true
    · rw [if_pos hd] at h
      have hsplit : (takeDigits (c :: s0)).1 ++ (takeDigits (c :: s0)).2 = c :: s0 :=
        takeDigits_append _
      cases hr1 : (takeDigits (c :: s0)).2 with
      | nil =>
        rw [hr1] at h
        obtain ⟨hp, hne⟩ := hA _ _ h
        cases sep with
        | nil => exact absurd rfl hne
        | cons a as => simp [List.isPrefixOf] at hp
      | cons d t =>
        rw [hr1] at h
        simp only [] at h
        by_cases hsp : d = ' '
        · rw [if_pos hsp] at h
          cases ha : alts t with
          | some x =>
            rw [ha] at h
            cases h
            obtain ⟨hp, hne⟩ := hA _ _ ha
            refine ⟨?_, hne⟩
            rw [← hsplit, hr1, hsp]
            exact containsSub_append _ (containsSub_cons _ (containsSub_of_isPrefixOf hp))
          | none =>
            rw [ha] at h
            obtain ⟨hp, hne⟩ := hA _ _ h
            refine ⟨?_, hne⟩
            rw [← hsplit, hr1]
            exact containsSub_append _ (containsSub_of_isPrefixOf hp)
        · rw [if_neg hsp] at h
          obtain ⟨hp, hne⟩ := hA _ _ h
          refine ⟨?_, hne⟩
          rw [← hsplit, hr1]
          exact containsSub_append _ (containsSub_of_isPrefixOf hp)
    · rw [if_neg hd] at h
      exact absurd h (by simp)

theorem findSepFrom_sound {alts : List Char → Option (List Char)}
    (hA : ∀ r sep, alts r = some sep → sep.isPrefixOf r = true ∧ sep ≠ []) :
    ∀ {l sep : List Char}, findSepFrom alts l = some sep →
      containsSub sep l = true ∧ sep ≠ []
  | [], sep, h => absurd h (by simp [findSepFrom])
  | c :: r, sep, h => by
    unfold findSepFrom at h
    cases ht : trySepAt alts (c :: r) with
    | some x =>
      rw [ht] at h
      cases h
      exact trySepAt_sound hA ht
    | none =>
      rw [ht] at h
      obtain ⟨hc, hne⟩ := findSepFrom_sound hA h
      exact ⟨containsSub_cons c hc, hne⟩

theorem pySplitOnAux_ne_nil (c : Char) (cs : List Char) :
    ∀ (fuel : Nat) (acc l : List Char), pySplitOnAux c cs fuel acc l ≠ [] := by
  intro fuel
  induction fuel with
  | zero =>
    intro acc l
    cases l <;> simp [pySplitOnAux]
  | succ fuel ih =>
    intro acc l
    cases l with
    | nil => simp [pySplitOnAux]
    | cons d r =>
      unfold pySplitOnAux
      by_cases hp : (c :: cs).isPrefixOf (d :: r) = true
      · simp [hp]
      · simpa [hp] using ih _ _

theorem pySplitOnAux_len2 (c : Char) (cs : List Char) :
    ∀ (fuel : Nat) (l acc : List Char), l.length ≤ fuel →
      containsSub (c :: cs) l = true →
      2 ≤ (pySplitOnAux c cs fuel acc l).length := by
  intro fuel
  induction fuel with
  | zero =>
    intro l acc hf h
    have : l = [] := List.length_eq_zero.mp (Nat.le_zero.mp hf)
    subst this
    simp [containsSub, List.isEmpty] at h
  | succ fuel ih =>
    intro l acc hf h
    cases l with
    | nil => simp [containsSub, List.isEmpty] at h
    | cons d r =>
      unfold pySplitOnAux
      by_cases hp : (c :: cs).isPrefixOf (d :: r) = true
      · rw [if_pos hp]
        have := pySplitOnAux_ne_nil c cs fuel ([] : List Char) (r.drop cs.length)
        have hlen := List.length_pos.mpr this
        simp only [List.length_cons]
        omega
      · rw [if_neg hp]
        apply ih
        · simp only [List.length_cons] at hf
          omega
        · simpa [containsSub, hp] using h

theorem optMapList_length {f : α → Option β} :
    ∀ {l : List α} {l' : List β}, optMapList f l = some l' → l'.length = l.length
  | [], l', h => by
    simp only [optMapList] at h
    cases h
    rfl
  | a :: r, l', h => by
    simp only [optMapList] at h
    cases hf : f a with
    | none => rw [hf] at h; exact absurd h (by simp)
    | some b =>
      rw [hf] at h
      cases ho : optMapList f r with
      | none => rw [ho] at h; exact absurd h (by simp)
      | some bs =>
        rw [ho] at h
        cases h
        simpa using optMapList_length ho

theorem pySplitOn_len2 {sep l : List Char} (hne : sep ≠ [])
    (h : containsSub sep l = true) : 2 ≤ (pySplitOn sep l).length := by
  cases sep with
  | nil => exact absurd rfl hne
  | cons c cs => exact pySplitOnAux_len2 c cs l.length l [] (Nat.le_refl _) h

/-- C6 (amended): `get_values` classifies the (preprocessed) literal by
trying, in priority order, the range separator, the uncertainty separator,
the simple-fraction pattern, and a plain float; whenever it succeeds, the
values list is non-empty; the uncertainty is non-`none` exactly in the
uncertainty case; in the range case the values are the floats of the pieces
obtained by splitting on the captured separator — at least two of them, one
per separator-delimited piece (but not exactly two when the separator occurs
more than once). -/
theorem c6_value_classification (v : List Char) (u : Option ℚ) (vals : List ℚ)
    (h : get_values v = some (u, vals)) :
    vals ≠ [] ∧
    (∀ sep, findRangeSep (preprocessValue v) = some sep →
        u = none ∧ 2 ≤ vals.length ∧
        optMapList (fun p => parseFloat (stripTrailHyphen p))
          (pySplitOn sep (preprocessValue v)) = some vals) ∧
    (findRangeSep (preprocessValue v) = none →
      ∀ sep, findUncerSep (preprocessValue v) = some sep →
        (∃ q, u = some q) ∧ vals.length = 1) ∧
    (findRangeSep (preprocessValue v) = none →
      findUncerSep (preprocessValue v) = none → u = none ∧ vals.length = 1) ∧
    (u.isSome = true →
      findRangeSep (preprocessValue v) = none ∧
      (findUncerSep (preprocessValue v)).isSome = true) := by
  simp only [get_values] at h
  cases hr : findRangeSep (preprocessValue v) with
  | some sep =>
    rw [hr] at h
    simp only [] at h
    cases ho : optMapList (fun p => parseFloat (stripTrailHyphen p))
        (pySplitOn sep (preprocessValue v)) with
    | none => rw [ho] at h; simp at h
    | some vals' =>
      rw [ho] at h
      simp only [Option.some.injEq, Prod.mk.injEq] at h
      obtain ⟨hu, hv⟩ := h
      subst hu hv
      have hsound := findSepFrom_sound (fun r s hs => rangeAlts_sound hs) hr
      have hlen2 : 2 ≤ vals'.length := by
        rw [optMapList_length ho]
        exact pySplitOn_len2 hsound.2 hsound.1
      refine ⟨?_, ?_, ?_, ?_, ?_⟩
      · intro hnil; rw [hnil] at hlen2; simp at hlen2
      · intro sep' hsep'
        cases hsep'
        exact ⟨rfl, hlen2, ho⟩
      · intro hnone; exact absurd hnone (by simp)
      · intro hnone; exact absurd hnone (by simp)
      · intro hsome; simp at hsome
  | none =>
    rw [hr] at h
    simp only [] at h
    cases hu : findUncerSep (preprocessValue v) with
    | some sep =>
      rw [hu] at h
      simp only [] at h
      cases ho : optMapList parseFloat (pySplitOn sep (preprocessValue v)) with
      | none => rw [ho] at h; simp at h
      | some parsed =>
        rw [ho] at h
        match parsed, h with
        | [], h => simp at h
        | [a], h => simp at h
        | a :: b :: rest, h =>
          simp only [Option.some.injEq, Prod.mk.injEq] at h
          obtain ⟨hu', hv⟩ := h
          subst hu' hv
          refine ⟨by simp, ?_, ?_, ?_, ?_⟩
          · intro sep' hsep'; exact absurd hsep' (by simp)
          · intro _ sep' hsep'; exact ⟨⟨b, rfl⟩, rfl⟩
          · intro _ hnone; exact absurd hnone (by simp)
          · intro _; exact ⟨rfl, rfl⟩
    | none =>
      rw [hu] at h
      simp only [] at h
      have hrest : u = none ∧ vals.length = 1 := by
        by_cases hf : hasFract (preprocessValue v) = true
        · rw [if_pos hf] at h
          cases hws : pySplitWs (preprocessValue v) with
          | nil => rw [hws] at h; simp at h
          | cons p0 ps =>
            cases ps with
            | nil =>
              rw [hws] at h
              simp only [] at h
              cases hp : parseFraction p0 with
              | none => rw [hp] at h; simp at h
              | some a =>
                rw [hp] at h
                simp only [Option.some.injEq, Prod.mk.injEq] at h
                obtain ⟨hu', hv⟩ := h
                subst hu' hv
                exact ⟨rfl, rfl⟩
            | cons p1 ps' =>
              rw [hws] at h
              simp only [] at h
              cases hp0 : parseFloat p0 with
              | none => rw [hp0] at h; simp at h
              | some a =>
                cases hp1 : parseFraction p1 with
                | none => rw [hp0, hp1] at h; simp at h
                | some b =>
                  rw [hp0, hp1] at h
                  simp only [Option.some.injEq, Prod.mk.injEq] at h
                  obtain ⟨hu', hv⟩ := h
                  subst hu' hv
                  exact ⟨rfl, rfl⟩
        · rw [if_neg hf] at h
          cases hp : parseFloat (stripTrailHyphen (preprocessValue v)) with
          | none => rw [hp] at h; simp at h
          | some a =>
            rw [hp] at h
            simp only [Option.some.injEq, Prod.mk.injEq] at h
            obtain ⟨hu', hv⟩ := h
            subst hu' hv
            exact ⟨rfl, rfl⟩
      refine ⟨?_, ?_, ?_, ?_, ?_⟩
      · intro hnil; rw [hnil] at hrest; simp at hrest
      · intro sep' hsep'; exact absurd hsep' (by simp)
      · intro _ sep' hsep'; exact absurd hsep' (by simp)
      · intro _ _; exact hrest
      · intro hsome; rw [hrest.1] at hsome; simp at hsome

/-- C6, counterexample to the claim as stated: on the literal `1-2-3` the
range-separator case fires and `get_values` splits into THREE floats, not two
(`value.split` splits on every occurrence of the captured separator). -/
theorem c6_range_not_two_values :
    get_values "1-2-3".data = some (none, [(1 : ℚ), 2, 3]) ∧
    (get_values "1-2-3".data).map (fun p => p.2.length) ≠ some 2 := by
  constructor
  · decide
  · decide

/-- Witness for `c6_value_classification` at the concrete literal `10-20`. -/
theorem c6_value_classification_witness :
    get_values "10-20".data = some (none, [(10 : ℚ), 20]) ∧
    ([(10 : ℚ), 20] : List ℚ) ≠ [] :=
  ⟨by decide, (c6_value_classification "10-20".data none [10, 20] (by decide)).1⟩

theorem spellLoop_foldl (ws : List (List Char)) :
    ∀ (curr result : ℚ),
      spellLoop ws curr result =
        (ws.foldl spellStep (result, curr)).1 + (ws.foldl spellStep (result, curr)).2 := by
  induction ws with
  | nil => intro curr result; simp [spellLoop]
  | cons w ws ih =>
    intro curr result
    simp only [spellLoop, List.foldl_cons]
    by_cases h : (resolveNumToken w).1 > 100
    · rw [if_pos h, ih]
      have hs : spellStep (result, curr) w =
          (result + (curr * (resolveNumToken w).1 + (resolveNumToken w).2), 0) := by
        simp [spellStep, h]
      rw [hs]
    · rw [if_neg h, ih]
      have hs : spellStep (result, curr) w =
          (result, curr * (resolveNumToken w).1 + (resolveNumToken w).2) := by
        simp [spellStep, h]
      rw [hs]

/-- C7: the spelled-number residue is converted by iterating its whitespace
tokens with the two accumulators `curr` and `result` (both starting at 0),
updating `curr := curr * scale + increment` per token (scale 1 for digit
literals, table values otherwise — see `resolveNumToken`), flushing
`result += curr; curr := 0` whenever the token's scale exceeds 100, and
returning `result + curr`: the loop of the source equals the fold of the
specification's step function. -/
theorem c7_spellout_accumulator (surface : List Char) :
    spellout_value surface =
      ((pySplitWs surface).foldl spellStep (0, 0)).1 +
      ((pySplitWs surface).foldl spellStep (0, 0)).2 :=
  spellLoop_foldl (pySplitWs surface) 0 0

/-! ### The offset-reconciliation contract (claim C3) -/

theorem getElem?_of_drop_eq {t text : List Char} {k d : Nat}
    (h : t.drop k = text.drop d) {i : Nat} (hd : d ≤ i) :
    t[k + (i - d)]? = text[i]? := by
  have h1 : (t.drop k)[i - d]? = (text.drop d)[i - d]? := by rw [h]
  rw [List.getElem?_drop, List.getElem?_drop] at h1
  have e : d + (i - d) = i := by omega
  rw [e] at h1
  exact h1

theorem chainb_le_lowGuard {N m : Nat} {vs : List Repl}
    (h : chainb N m vs = true) (hmN : m ≤ N) : m ≤ lowGuard N vs := by
  cases vs with
  | nil => exact hmN
  | cons v rest =>
    simp only [chainb, Bool.and_eq_true, decide_eq_true_eq] at h
    exact h.1.1.1.1.1

theorem cumShift_eq_zero {N i : Nat} :
    ∀ {vs : List Repl} {m : Nat}, chainb N m vs = true → i < m →
      cumShift vs i = 0
  | [], _, _, _ => rfl
  | v :: rest, m, h, him => by
    simp only [chainb, Bool.and_eq_true, decide_eq_true_eq] at h
    obtain ⟨⟨⟨⟨⟨h1, h2⟩, h3⟩, h4⟩, h5⟩, h6⟩ := h
    simp only [cumShift]
    rw [if_neg (by omega), cumShift_eq_zero h6 (by omega : i < v.old_end)]
    simp

theorem cumShift_lower_bound {N : Nat} :
    ∀ {vs : List Repl} {m : Nat}, chainb N m vs = true →
      ∀ i : Nat, m ≤ i → 0 ≤ (i : Int) - m + cumShift vs i
  | [], m, _, i, him => by
    simp only [cumShift]
    omega
  | v :: rest, m, h, i, him => by
    simp only [chainb, Bool.and_eq_true, decide_eq_true_eq] at h
    obtain ⟨⟨⟨⟨⟨h1, h2⟩, h3⟩, h4⟩, h5⟩, h6⟩ := h
    have hnewlen : 1 ≤ v.new_surface.length := List.length_pos.mpr h5
    simp only [cumShift]
    by_cases hbi : v.old_end ≤ i
    · rw [if_pos hbi]
      have := cumShift_lower_bound h6 i hbi
      simp only [delta]
      omega
    · rw [if_neg hbi]
      have : cumShift rest i = 0 :=
        cumShift_eq_zero h6 (by omega : i < v.old_end)
      rw [this]
      omega

theorem subFold_spec (text : List Char) :
    ∀ (vs : List Repl) (s : Int) (t : List Char) (sh : Nat → Int) (m : Nat),
      0 ≤ (m : Int) + s →
      ((t.length : Int) = (text.length : Int) + s) →
      t.drop ((m : Int) + s).toNat = text.drop m →
      (∀ j : Nat, (m : Int) + s ≤ (j : Int) →
        (j : Int) < (text.length : Int) + s → sh j = s) →
      chainb text.length m vs = true →
      ((∀ j : Nat, (j : Int) < (lowGuard text.length vs : Int) + s →
          (vs.foldl subStep (s, t, sh)).2.2 j = sh j ∧
          (vs.foldl subStep (s, t, sh)).2.1[j]? = t[j]?) ∧
       (∀ i : Nat, m ≤ i → i < text.length → untouchedb vs i = true →
          (vs.foldl subStep (s, t, sh)).2.2 ((i : Int) + s + cumShift vs i).toNat
              = s + cumShift vs i ∧
          (vs.foldl subStep (s, t, sh)).2.1[((i : Int) + s + cumShift vs i).toNat]?
              = text[i]?)) := by
  intro vs
  induction vs with
  | nil =>
    intro s t sh m h1 h2 h3 h5 hch
    refine ⟨fun j _ => ⟨rfl, rfl⟩, fun i him hiN _ => ?_⟩
    simp only [List.foldl_nil, cumShift, add_zero]
    constructor
    · exact h5 _ (by omega) (by omega)
    · have key := getElem?_of_drop_eq h3 (i := i) him
      have e : ((m : Int) + s).toNat + (i - m) = ((i : Int) + s).toNat := by omega
      rw [e] at key
      exact key
  | cons v rest ih =>
    intro s t sh m h1 h2 h3 h5 hch
    simp only [chainb, Bool.and_eq_true, decide_eq_true_eq] at hch
    obtain ⟨⟨⟨⟨⟨hma, hab⟩, hbN⟩, hlen⟩, hnew⟩, hchr⟩ := hch
    have hnewlen : 1 ≤ v.new_surface.length := List.length_pos.mpr hnew
    set first := ((v.old_start : Int) + s).toNat with hfirst
    set second := ((v.old_end : Int) + s).toNat with hsecond
    set t1 := t.take first ++ v.new_surface ++ t.drop second with ht1
    set s1 := s + (v.new_surface.length : Int) - v.old_surface.length with hs1
    set sh1 := recordFrom sh (first + 1) t1.length s1 with hsh1
    have hstep : subStep (s, t, sh) v = (s1, t1, sh1) := rfl
    have hfold : ∀ z : Int × List Char × (Nat → Int),
        List.foldl subStep z (v :: rest) = List.foldl subStep (subStep z v) rest :=
      fun z => List.foldl_cons ..
    have hf2 : (first : Int) = (v.old_start : Int) + s := by omega
    have hf4 : (second : Int) = (v.old_end : Int) + s := by omega
    have hsecle : second ≤ t.length := by omega
    have htake_len : (t.take first).length = first := by
      rw [List.length_take]
      omega
    have ht1len : (t1.length : Int) = (text.length : Int) + s1 := by
      rw [ht1]
      simp only [List.length_append, List.length_drop, htake_len]
      omega
    have hdrop1 : t1.drop ((v.old_end : Int) + s1).toNat = text.drop v.old_end := by
      have he : ((v.old_end : Int) + s1).toNat = first + v.new_surface.length := by
        omega
      rw [he, ht1]
      have e3 : first + v.new_surface.length =
          (t.take first).length + v.new_surface.length := by
        rw [htake_len]
      rw [List.append_assoc, e3, List.drop_append, List.drop_left]
      have he2 : second = ((m : Int) + s).toNat + (v.old_end - m) := by omega
      rw [he2, ← List.drop_drop, h3, List.drop_drop]
      congr 1
      omega
    have h51 : ∀ j : Nat, (v.old_end : Int) + s1 ≤ (j : Int) →
        (j : Int) < (text.length : Int) + s1 → sh1 j = s1 := by
      intro j hj1 hj2
      rw [hsh1]
      simp only [recordFrom]
      rw [if_pos]
      constructor
      · omega
      · omega
    obtain ⟨IHpres, IHmain⟩ :=
      ih s1 t1 sh1 v.old_end (by omega) ht1len hdrop1 h51 hchr
    have hguard : v.old_end ≤ lowGuard text.length rest :=
      chainb_le_lowGuard hchr hbN
    have Cpres : ∀ j : Nat,
        (j : Int) < (lowGuard text.length (v :: rest) : Int) + s →
        ((v :: rest).foldl subStep (s, t, sh)).2.2 j = sh j ∧
        ((v :: rest).foldl subStep (s, t, sh)).2.1[j]? = t[j]? := by
      intro j hj
      simp only [lowGuard] at hj
      rw [hfold, hstep]
      have hj1 : (j : Int) < (lowGuard text.length rest : Int) + s1 := by omega
      obtain ⟨hp1, hp2⟩ := IHpres j hj1
      have hjf : j < first := by omega
      refine ⟨?_, ?_⟩
      · rw [hp1, hsh1]
        simp only [recordFrom]
        rw [if_neg (by omega)]
      · rw [hp2, ht1, List.append_assoc,
          List.getElem?_append_left (by rw [htake_len]; exact hjf),
          List.getElem?_take_of_lt hjf]
    refine ⟨Cpres, ?_⟩
    intro i him hiN hu
    simp only [untouchedb, List.all_cons, Bool.and_eq_true, Bool.or_eq_true,
      decide_eq_true_eq] at hu
    obtain ⟨hcase, hurest⟩ := hu
    have hurest' : untouchedb rest i = true := by
      simp only [untouchedb]
      exact hurest
    rcases hcase with hlt | hge
    · have hble : ¬ (v.old_end ≤ i) := by omega
      have hcr : cumShift rest i = 0 :=
        cumShift_eq_zero hchr (by omega : i < v.old_end)
      have hcs0 : cumShift (v :: rest) i = 0 := by
        simp [cumShift, hble, hcr]
      rw [hcs0]
      simp only [add_zero]
      have hj : (((i : Int) + s).toNat : Int) <
          (lowGuard text.length (v :: rest) : Int) + s := by
        simp only [lowGuard]
        omega
      obtain ⟨hp1, hp2⟩ := Cpres ((i : Int) + s).toNat hj
      refine ⟨?_, ?_⟩
      · rw [hp1]
        exact h5 _ (by omega) (by omega)
      · rw [hp2]
        have key := getElem?_of_drop_eq h3 (i := i) him
        have e : ((m : Int) + s).toNat + (i - m) = ((i : Int) + s).toNat := by
          omega
        rw [e] at key
        exact key
    · have hcs : cumShift (v :: rest) i = delta v + cumShift rest i := by
        simp [cumShift, hge]
      obtain ⟨hm1, hm2⟩ := IHmain i hge hiN hurest'
      rw [hfold, hstep]
      have e1 : ((i : Int) + s + cumShift (v :: rest) i)
          = ((i : Int) + s1 + cumShift rest i) := by
        rw [hcs]
        simp only [delta]
        omega
      have e2 : s + cumShift (v :: rest) i = s1 + cumShift rest i := by
        rw [hcs]
        simp only [delta]
        omega
      rw [e1, e2]
      exact ⟨hm1, hm2⟩

/-- C3 (amended): under the claim's hypotheses (non-overlapping replacement
list sorted by original span start, spans within the text, surfaces matching
their spans, non-empty replacement strings), `substitute_values` leaves, at
every result index copied from the original text, the cumulative shift of the
replacements lying before it (the recording loop writes it from one past each
replacement's adjusted start onward, later replacements overwriting, 0 for
indices never touched); the mapping back satisfies
`original_index = result_index - shift[result_index]` at such indices, the
copied character is preserved, and `spanBack` — the span conversion of
`get_surface`, which converts the end of a span using `shift[end - 1]` —
recovers the span in the pre-substitution text. -/
theorem c3_offset_contract (text : List Char) (vs : List Repl)
    (hch : chainb text.length 0 vs = true) :
    (∀ i : Nat, i < text.length → untouchedb vs i = true →
      (substitute_values text vs).2 ((i : Int) + cumShift vs i).toNat
          = cumShift vs i ∧
      (substitute_values text vs).1[((i : Int) + cumShift vs i).toNat]?
          = text[i]? ∧
      ((((i : Int) + cumShift vs i).toNat : Int) -
        (substitute_values text vs).2 ((i : Int) + cumShift vs i).toNat
          = (i : Int))) ∧
    (∀ (p q i j : Nat), i < text.length → untouchedb vs i = true →
      j < text.length → untouchedb vs j = true →
      (p : Int) = (i : Int) + cumShift vs i →
      (q : Int) = (j : Int) + cumShift vs j + 1 →
      spanBack (substitute_values text vs).2 (p, q) = ((i : Int), (j : Int) + 1)) := by
  have base := subFold_spec text vs 0 text (fun _ => 0) 0
    (by simp) (by simp) (by simp) (fun j _ _ => rfl) hch
  obtain ⟨_, hmain⟩ := base
  have hmain' : ∀ i : Nat, i < text.length → untouchedb vs i = true →
      (substitute_values text vs).2 ((i : Int) + cumShift vs i).toNat
          = cumShift vs i ∧
      (substitute_values text vs).1[((i : Int) + cumShift vs i).toNat]?
          = text[i]? := by
    intro i hiN hui
    have h := hmain i (Nat.zero_le i) hiN hui
    simpa [substitute_values] using h
  refine ⟨fun i hiN hui => ?_, fun p q i j hiN hui hjN huj hp hq => ?_⟩
  · obtain ⟨hsh, hget⟩ := hmain' i hiN hui
    refine ⟨hsh, hget, ?_⟩
    rw [hsh]
    have hge := cumShift_lower_bound hch i (Nat.zero_le i)
    omega
  · obtain ⟨hshi, _⟩ := hmain' i hiN hui
    obtain ⟨hshj, _⟩ := hmain' j hjN huj
    have hgei := cumShift_lower_bound hch i (Nat.zero_le i)
    have hgej := cumShift_lower_bound hch j (Nat.zero_le j)
    have hpi : p = ((i : Int) + cumShift vs i).toNat := by omega
    have hq0 : q ≠ 0 := by omega
    have hq1 : q - 1 = ((j : Int) + cumShift vs j).toNat := by omega
    simp only [spanBack, if_neg hq0]
    rw [hpi, hq1, hshi, hshj]
    rw [Prod.mk.injEq]
    constructor
    · omega
    · omega

/-- C3, counterexample to the claim as stated: the recording loop starts at
`first + 1`, so the shift at a replacement's adjusted start position itself is
NOT set to the updated cumulative shift.  For text `ab` with the single
replacement `a → XY` (span (0,1), updated shift 1), position 0 is the
adjusted start, yet the table still carries 0 there, while positions from 1
on carry 1. -/
theorem c3_shift_not_recorded_at_start :
    (substitute_values "ab".data [⟨0, 1, "a".data, "XY".data⟩]).2 0 = 0 ∧
    ¬ ((substitute_values "ab".data [⟨0, 1, "a".data, "XY".data⟩]).2 0 = 1) ∧
    (substitute_values "ab".data [⟨0, 1, "a".data, "XY".data⟩]).2 1 = 1 ∧
    (substitute_values "ab".data [⟨0, 1, "a".data, "XY".data⟩]).2 2 = 1 := by
  refine ⟨by decide, by decide, by decide, by decide⟩

/-- Witness for `c3_offset_contract`: text `ten m`, replacement
`ten → 10.0` (span (0,3), shift +1); the untouched character `m` at original
index 4 sits at result index 5 with recorded shift 1, and the span (5,6) of
`m` in the result maps back to (4,5). -/
theorem c3_offset_contract_witness :
    chainb ("ten m".data.length) 0 [⟨0, 3, "ten".data, "10.0".data⟩] = true ∧
    (substitute_values "ten m".data [⟨0, 3, "ten".data, "10.0".data⟩]).2 5 = 1 ∧
    spanBack (substitute_values "ten m".data [⟨0, 3, "ten".data, "10.0".data⟩]).2
      (5, 6) = (4, 5) := by
  have h := c3_offset_contract "ten m".data [⟨0, 3, "ten".data, "10.0".data⟩]
    (by decide)
  refine ⟨by decide, ?_, ?_⟩
  · have := (h.1 4 (by decide) (by decide)).1
    simpa using this
  · have := h.2 5 6 4 4 (by decide) (by decide) (by decide) (by decide)
      (by decide) (by decide)
    simpa using this

/-! ### The slash flag and reciprocal composition (claim C5) -/

theorem units_not_operators {g : Nat} (h : group_units.contains g = true) :
    group_operators.contains g = false := by
  have h' : g ∈ ([1, 4, 6, 8, 10] : List Nat) := by
    simpa [group_units] using h
  fin_cases h' <;> decide

theorem divSeen_append (item : MatchItem) (pre : List Nat) (g : Nat) :
    divSeen item (pre ++ [g]) =
      (divSeen item pre ||
        (group_operators.contains g && truthy (item.groups g) &&
          isDivMarkerG (item.groups g))) := by
  simp [divSeen, List.any_append]

theorem parse_unit_slash (item : MatchItem) (g : Nat) :
    parse_unit item g true =
      (parse_unit item g false).map (fun sp => (sp.1, -sp.2)) := by
  unfold parse_unit
  by_cases h1 : powerRuns (((item.groups g).getD []).filter (fun c => !(c = '.'))) ≠ []
  · rw [if_pos h1, if_pos h1]
    cases hpi : parseInt (((powerRuns (((item.groups g).getD []).filter
        (fun c => !(c = '.')))).map superRunMap).join) with
    | some p => simp [hpi, Except.map, neg_one_mul]
    | none => simp [hpi, Except.map]
  · rw [if_neg h1, if_neg h1]
    by_cases h2 : containsWord "cubed".data
        (((item.groups g).getD []).filter (fun c => !(c = '.'))) = true
    · simp [h2, Except.map]
    · rw [if_neg h2, if_neg h2]
      by_cases h3 : containsWord "squared".data
          (((item.groups g).getD []).filter (fun c => !(c = '.'))) = true
      · simp [h3, Except.map]
      · simp [h3, Except.map]

theorem unitDimsLoop_spec (kb : KB) (item : MatchItem) :
    ∀ (order pre : List Nat) (dims : List Dim),
      (∀ g ∈ order, group_units.contains g = true ∨
        group_operators.contains g = true) →
      unitDimsLoop kb item order (divSeen item pre) = .ok dims →
      dims = specDimsFrom kb item pre order := by
  intro order
  induction order with
  | nil =>
    intro pre dims _ h
    simp only [unitDimsLoop, Except.ok.injEq] at h
    rw [← h]
    rfl
  | cons g rest ih =>
    intro pre dims hwf h
    have hwfr : ∀ g' ∈ rest, group_units.contains g' = true ∨
        group_operators.contains g' = true :=
      fun g' hg' => hwf g' (List.mem_cons_of_mem _ hg')
    by_cases ht : truthy (item.groups g) = true
    · by_cases hu : group_units.contains g = true
      · -- a participating unit-surface group
        have hum : g ∈ group_units := by simpa using hu
        have hdj : group_operators.contains g = false := units_not_operators hu
        have hpre : divSeen item (pre ++ [g]) = divSeen item pre := by
          rw [divSeen_append, hdj]
          simp
        unfold unitDimsLoop at h
        rw [if_pos ht, if_pos hu] at h
        cases hdv : divSeen item pre with
        | false =>
          rw [hdv] at h
          cases hpu : parse_unit item g false with
          | error e => rw [hpu] at h; simp at h
          | ok sp =>
            rw [hpu] at h
            cases hrest : unitDimsLoop kb item rest false with
            | error e => rw [hrest] at h; simp [Except.map] at h
            | ok ds =>
              rw [hrest] at h
              simp only [Except.map, Except.ok.injEq] at h
              have hds : ds = specDimsFrom kb item (pre ++ [g]) rest := by
                apply ih (pre ++ [g]) ds hwfr
                rw [hpre, hdv]
                exact hrest
              rw [← h, hds]
              simp [specDimsFrom, ht, hu, hum, hpu, hdv]
        | true =>
          rw [hdv] at h
          have hslash := parse_unit_slash item g
          cases hpu : parse_unit item g false with
          | error e =>
            rw [hpu] at hslash
            rw [hslash] at h
            simp [Except.map] at h
          | ok sp0 =>
            rw [hpu] at hslash
            rw [hslash] at h
            simp only [Except.map] at h
            cases hrest : unitDimsLoop kb item rest true with
            | error e => rw [hrest] at h; simp [Except.map] at h
            | ok ds =>
              rw [hrest] at h
              simp only [Except.map, Except.ok.injEq] at h
              have hds : ds = specDimsFrom kb item (pre ++ [g]) rest := by
                apply ih (pre ++ [g]) ds hwfr
                rw [hpre, hdv]
                exact hrest
              rw [← h, hds]
              simp [specDimsFrom, ht, hu, hum, hpu, hdv, neg_one_mul]
      · -- a participating operator group
        have hum : g ∉ group_units := by simpa using hu
        have hop : group_operators.contains g = true := by
          rcases hwf g (List.mem_cons_self g rest) with h' | h'
          · exact absurd h' hu
          · exact h'
        unfold unitDimsLoop at h
        rw [if_pos ht, if_neg (by simpa using hu)] at h
        have hpre : divSeen item (pre ++ [g]) =
            (if divSeen item pre then divSeen item pre
             else containsSub "/".data ((item.groups g).getD []) ||
                  containsSub " per ".data ((item.groups g).getD [])) := by
          rw [divSeen_append, hop, ht]
          cases hdv : divSeen item pre <;> simp [isDivMarkerG]
        rw [← hpre] at h
        have := ih (pre ++ [g]) dims hwfr h
        rw [this]
        simp [specDimsFrom, ht, hu, hum]
    · -- a non-participating group
      have ht' : truthy (item.groups g) = false := by simpa using ht
      have hpre : divSeen item (pre ++ [g]) = divSeen item pre := by
        rw [divSeen_append, ht']
        simp
      unfold unitDimsLoop at h
      rw [if_neg (by simpa using ht)] at h
      rw [← hpre] at h
      have := ih (pre ++ [g]) dims hwfr h
      rw [this]
      simp [specDimsFrom, ht]

/-- C5: in unit extraction the `slash` flag starts false (no division marker
among the processed prefix), becomes true at the first participating operator
group containing `/` or ` per ` and stays true from there on, and never
changes at a non-division operator group — expressed by the loop's flag being
`divSeen` of the processed prefix; while it is true, every subsequent
unit-surface group's parsed power is negated (`specDimsFrom` applies the
factor -1 exactly when a division marker occurred earlier); and when no
unit-surface group participates at all, `get_unit` resolves to the canonical
dimensionless unit. -/
theorem c5_slash_negation (kb : KB) (item : MatchItem) :
    ((group_units.filterMap (fun i =>
        if truthy (item.groups i) then item.groups i else none)).length = 0 →
      get_unit kb item = .ok (kb.names "dimensionless".data)) ∧
    (∀ dims, unitDimsLoop kb item sortedGroups false = .ok dims →
      dims = specDimsFrom kb item [] sortedGroups) := by
  constructor
  · intro h
    simp [get_unit, h]
  · intro dims h
    have h0 : divSeen item [] = false := rfl
    exact unitDimsLoop_spec kb item sortedGroups [] dims
      (by decide) (by rw [h0]; exact h)

/-- Witness for `c5_slash_negation` at a concrete knowledge base and match
(`m / s2`, i.e. metres per second squared): the loop yields
[{metre, +1}, {second, -2}] and agrees with the specification's description;
and at the empty match, `get_unit` yields the dimensionless unit. -/
theorem c5_slash_negation_witness :
    (let kb : KB := {
      names := fun s =>
        if s = "dimensionless".data then
          ⟨"dimensionless".data, ⟨"dimensionless".data, [], none⟩, [], none⟩
        else ⟨"metre".data, ⟨"length".data, [], none⟩, [⟨"metre".data, 1⟩], none⟩
      unitsFirst := fun s =>
        if s = "s".data then
          ⟨"second".data, ⟨"time".data, [], none⟩, [⟨"second".data, 1⟩], none⟩
        else ⟨"metre".data, ⟨"length".data, [], none⟩, [⟨"metre".data, 1⟩], none⟩
      key := fun dims => (dims.map (fun d => d.base ++ [';'])).join
      derived_uni := fun _ => none
      derived_ent := fun _ => [] };
    let item : MatchItem := ⟨fun n =>
      if n = 1 then some "m".data
      else if n = 3 then some "/".data
      else if n = 4 then some "s2".data
      else none, (0, 6)⟩;
    let emptyItem : MatchItem := ⟨fun _ => none, (0, 0)⟩;
    unitDimsLoop kb item sortedGroups false =
      .ok [⟨"metre".data, 1⟩, ⟨"second".data, -2⟩] ∧
    [Dim.mk "metre".data 1, Dim.mk "second".data (-2)] =
      specDimsFrom kb item [] sortedGroups ∧
    get_unit kb emptyItem = .ok (kb.names "dimensionless".data)) := by
  refine ⟨by decide, ?_, ?_⟩
  · exact (c5_slash_negation _ _).2 _ (by decide)
  · exact (c5_slash_negation _ _).1 (by decide)

/-! ### Totality of `parse` (claim C1) and stale-state recovery (claim C2) -/

/-- C1, evaluation of the code at the failing inputs: `parse` does NOT
return normally on every input.  (1) When the FIRST grammar match's
numeric-literal group (`1/2/3`) fails all four value strategies, the caught
`ValueError` leaves `uncert` unbound and the `build_quantity` call site
raises `UnboundLocalError`.  (2) When a match's resolved unit is the
canonical dimensionless unit (empty dimensions list, spec section 3) and no
earlier correction rule applies, line 349's `unit.dimensions[-1]` raises
`IndexError`.  Both exceptions escape `parse`. -/
theorem c1_parse_raises_on_failing_inputs :
    parse testKB "1/2/3 m".data [] [matchFracFirst] = .error .unboundLocal ∧
    parse testKB "7".data [] [matchBare] = .error .indexError :=
  ⟨by decide, by decide⟩

/-- C2, evaluation of the code at the failing input: on
`3 m and 1/2/3 m` the second match's numeric group `1/2/3` raises
`ValueError` inside `get_values` (first conjunct), yet `parse` still emits a
Quantity for that match, silently reusing the stale value 3 of the first
match (second conjunct: both emitted quantities carry value 3, the second
with the surface `1/2/3 m` of the failed match). -/
theorem c2_stale_values_reused :
    get_values "1/2/3".data = none ∧
    parse testKB "3 m and 1/2/3 m".data [] [matchThree, matchFrac] =
      .ok [Quantity.mk 3 testMetreU "3 m".data (0, 3) none,
           Quantity.mk 3 testMetreU "1/2/3 m".data (8, 15) none] :=
  ⟨by decide, by decide⟩

/-! ### Span validity (claim C4) -/

/-- C4, evaluation of the code at the failing input: on `$3K then $3`
(length 11) the trailing match `$3` (span (9,11)) takes the currency-suffix
rule's single-dimension branch; `re.findall` finds the magnitude letter `K`
after the OTHER occurrence of `$3` earlier in the text, and the span end is
extended to 12 — past the end of the input, so the returned Quantity's span
is not a valid sub-range of the original input. -/
theorem c4_span_end_exceeds_input :
    parse testKB "$3K then $3".data [] [matchDollar] =
      .ok [Quantity.mk 3000 testDollarU "$3K".data (9, 12) none] ∧
    ((Quantity.mk 3000 testDollarU "$3K".data (9, 12) none).span.2 >
      ("$3K then $3".data.length : Int)) :=
  ⟨by decide, by decide⟩

/-! ### `inline_parse` only inserts (claims C9 and C10) -/

theorem sublist_insert_mid (t ins : List Char) (i : Nat) :
    t.Sublist (t.take i ++ ins ++ t.drop i) := by
  conv_lhs => rw [← List.take_append_drop i t]
  exact List.Sublist.append (List.sublist_append_left _ _)
    (List.Sublist.refl _)

theorem inlineInsertLoop_sublist :
    ∀ (qs : List Quantity) (shift : Nat) (t : List Char),
      t.Sublist (inlineInsertLoop qs shift t) := by
  intro qs
  induction qs with
  | nil => intro shift t; exact List.Sublist.refl t
  | cons q rest ih =>
    intro shift t
    exact List.Sublist.trans (sublist_insert_mid t _ _) (ih _ _)

/-- C9: whatever `inline_parse` returns contains the original text as a
subsequence of its characters: the loop only inserts the rendered
annotations after each quantity's span end (shifted by the cumulative length
of the earlier insertions) and never deletes or replaces a character. -/
theorem c9_inline_preserves_text (kb : KB) (text : List Char)
    (spellMatches : List (List Char × (Nat × Nat)))
    (dimMatches : List MatchItem) (out : List Char)
    (h : inline_parse kb text spellMatches dimMatches = .ok out) :
    text.Sublist out := by
  unfold inline_parse at h
  cases hp : parse kb text spellMatches dimMatches with
  | error e => rw [hp] at h; simp [Except.map] at h
  | ok qs =>
    rw [hp] at h
    simp only [Except.map, Except.ok.injEq] at h
    rw [← h]
    exact inlineInsertLoop_sublist qs 0 text

/-- Witness for `c9_inline_preserves_text` on the `3 m` scenario: the
returned annotated text contains the input as a subsequence. -/
theorem c9_inline_preserves_text_witness :
    inline_parse testKB "3 m".data [] [matchThree] =
      .ok "3 m \x7bQuantity(3, \"metre\")\x7d".data ∧
    "3 m".data.Sublist "3 m \x7bQuantity(3, \"metre\")\x7d".data :=
  ⟨by decide,
   c9_inline_preserves_text testKB "3 m".data [] [matchThree]
     "3 m \x7bQuantity(3, \"metre\")\x7d".data (by decide)⟩

/-- C9, counterexample to the claim as stated: `inline_parse` is not total
over all inputs — on the input of C1 it propagates `parse`'s
`UnboundLocalError`, so at that input there is no returned text containing
the original as a subsequence. -/
theorem c9_inline_can_raise :
    inline_parse testKB "1/2/3 m".data [] [matchFracFirst] =
      .error .unboundLocal := by
  decide

/-- C10: when `parse` returns the empty sequence, the insertion loop of
`inline_parse` is the identity and the original text is returned. -/
theorem c10_inline_identity_on_empty (kb : KB) (text : List Char)
    (spellMatches : List (List Char × (Nat × Nat)))
    (dimMatches : List MatchItem)
    (h : parse kb text spellMatches dimMatches = .ok []) :
    inline_parse kb text spellMatches dimMatches = .ok text := by
  unfold inline_parse
  rw [h]
  rfl

/-- Witness for `c10_inline_identity_on_empty` on an input with no grammar
matches. -/
theorem c10_inline_identity_on_empty_witness :
    parse testKB "hi".data [] [] = .ok [] ∧
    inline_parse testKB "hi".data [] [] = .ok "hi".data :=
  ⟨by decide, c10_inline_identity_on_empty _ _ _ _ (by decide)⟩

/-! ### The correction chain and per-value emission (claim C8) -/

/-- C8, counterexample to the claim as stated: a match whose resolved unit
has an EMPTY dimensions list (the canonical dimensionless unit, reached by
any bare-number match) and which none of the first three rules accepts makes
line 349's `unit.dimensions[-1]` raise `IndexError`: no Quantity at all is
emitted for the parsed value, instead of one per value. -/
theorem c8_empty_dimensions_raises :
    build_quantity testKB "7".data "7".data matchBare [7] testDimlessU
      "7".data (0, 1) none = .error .indexError := by
  decide

/-- C8 (amended): for every match reaching `build_quantity` whose unit has a
NON-empty dimensions list, the builder returns normally; the first applicable
rule of the chain wins (the chain is a mutually exclusive if/elif cascade:
when the discard rule fires nothing is emitted, and under no other
circumstances is the match dropped); and otherwise exactly one Quantity is
emitted per parsed value — all sharing one unit, surface, span and the given
uncertainty, differing only in value, in the order of the values sequence. -/
theorem c8_rule_exclusive_emission (kb : KB) (orig text : List Char)
    (item : MatchItem) (values : List ℚ) (unit : Unit) (surface : List Char)
    (span : Int × Int) (uncert : Option ℚ) (hdims : unit.dimensions ≠ []) :
    (discardCond surface = true →
      build_quantity kb orig text item values unit surface span uncert =
        .ok none) ∧
    (discardCond surface = false →
      ∃ (u2 : Unit) (s2 : List Char) (sp2 : Int × Int) (vals2 : List ℚ),
        vals2.length = values.length ∧
        build_quantity kb orig text item values unit surface span uncert =
          .ok (some (vals2.map (fun v => Quantity.mk v u2 s2 sp2 uncert)))) := by
  constructor
  · intro hd
    unfold build_quantity
    rw [if_pos hd]
  · intro hd
    unfold build_quantity
    rw [if_neg (by simp [hd])]
    by_cases hc : currencyGuard unit = true
    · rw [if_pos hc]
      by_cases hlen : unit.dimensions.length > 1
      · rw [if_pos hlen]
        cases hds : findDigitSuffix surface with
        | some su =>
          by_cases hrest : su.2 ≠ []
          · refine ⟨kb.unitsFirst ((unit.dimensions.head?.map Dim.base).getD []),
              surface.take ((findSubIdx su.2 surface).getD 0),
              (span.1, span.2 - su.2.length),
              values.map (fun v => v * SUFFIXES su.1), by simp, ?_⟩
            simp [hrest]
          · refine ⟨kb.unitsFirst ((unit.dimensions.head?.map Dim.base).getD []),
              surface, span,
              values.map (fun v => v * SUFFIXES su.1), by simp, ?_⟩
            simp [hrest]
        | none =>
          exact ⟨unit, surface, span, values, rfl, rfl⟩
      · rw [if_neg hlen]
        cases hss : findSurfaceSuffix surface orig with
        | some c =>
          refine ⟨unit, surface ++ [c], (span.1, span.2 + 1),
            values.map (fun v => v * SUFFIXES c), by simp, rfl⟩
        | none =>
          exact ⟨unit, surface, span, values, rfl, rfl⟩
    · rw [if_neg hc]
      by_cases hdec : matchesDecade surface = true
      · rw [if_pos hdec]
        exact ⟨kb.names "dimensionless".data, surface.dropLast,
          (span.1, span.2 - 1), values, rfl, rfl⟩
      · rw [if_neg hdec]
        cases hgl : unit.dimensions.getLast? with
        | none =>
          exact absurd (by simpa using hgl) hdims
        | some dl =>
          simp only []
          by_cases h4 : (dl.base = "inch".data && endsWith " in".data surface &&
              !(containsSub ['/'] surface)) = true
          · rw [if_pos h4]
            exact ⟨_, surface.take (surface.length - 3), (span.1, span.2 - 3),
              values, rfl, rfl⟩
          · rw [if_neg h4]
            by_cases h5 : is_quote_artifact text item.span = true
            · rw [if_pos h5]
              exact ⟨_, surface.take (surface.length - 1), (span.1, span.2 - 1),
                values, rfl, rfl⟩
            · rw [if_neg h5]
              by_cases h6 : (endsWith " time".data surface &&
                  unit.dimensions.length > 1 && dl.base = "count".data) = true
              · rw [if_pos h6]
                exact ⟨_, surface.take (surface.length - 5),
                  (span.1, span.2 - 5), values, rfl, rfl⟩
              · rw [if_neg h6]
                exact ⟨unit, surface, span, values, rfl, rfl⟩

/-- Witness for `c8_rule_exclusive_emission` on the `3 m` scenario (metre,
non-empty dimensions, no rule applicable): one Quantity per value. -/
theorem c8_rule_exclusive_emission_witness :
    testMetreU.dimensions ≠ [] ∧ discardCond "3 m".data = false ∧
    (∃ (u2 : Unit) (s2 : List Char) (sp2 : Int × Int) (vals2 : List ℚ),
      vals2.length = ([3] : List ℚ).length ∧
      build_quantity testKB "3 m".data "3 m".data matchThree [3] testMetreU
        "3 m".data (0, 3) none =
        .ok (some (vals2.map (fun v => Quantity.mk v u2 s2 sp2 none)))) :=
  ⟨by decide, by decide,
   (c8_rule_exclusive_emission testKB "3 m".data "3 m".data matchThree [3]
      testMetreU "3 m".data (0, 3) none (by decide)).2 (by decide)⟩

end Quantulum
